import Mathlib

/-! IP range filter (`gopkg.in/vinxi/ip.v0`): embedding and verification.

The development embeds `src/ip.go` in Lean:

* Go strings are byte sequences (`GoString`), so that `len`, indexing and
  slicing mean what they mean in Go;
* the functions of Go's standard library package `net` that `ip.go` calls
  (`net.ParseIP`, `net.ParseCIDR`, `(*net.IPNet).Contains`) follow the
  library's `net/ip.go` and `net/parse.go` (the Go 1.18 text of these files);
* a Go run-time panic (slice bounds) is the result `none`;
* an HTTP handler is a function on the sequence of calls received by the
  response writer, and the handler returned by `FilterHTTP` also yields the
  trace of the calls it makes.
-/

set_option autoImplicit false
set_option linter.dupNamespace false

namespace IPFilter

/-! ## Go strings -/

/-- A Go `string`: an immutable sequence of bytes, each byte a number below 256. -/
abbrev GoString := List Nat

/-- UTF-8 encoding of one character, as the Go compiler stores string literals. -/
def utf8 (c : Char) : List Nat :=
  let n := c.toNat
  if n < 0x80 then [n]
  else if n < 0x800 then [0xC0 + n / 0x40, 0x80 + n % 0x40]
  else if n < 0x10000 then [0xE0 + n / 0x1000, 0x80 + n / 0x40 % 0x40, 0x80 + n % 0x40]
  else [0xF0 + n / 0x40000, 0x80 + n / 0x1000 % 0x40, 0x80 + n / 0x40 % 0x40, 0x80 + n % 0x40]

/-- The Go string written as a literal. -/
def bytes (s : String) : GoString :=
  s.data.foldr (fun c acc => utf8 c ++ acc) []

/-- The byte `.` -/
def chDot : Nat := 46
/-- The byte `/` -/
def chSlash : Nat := 47
/-- The byte `:` -/
def chColon : Nat := 58
/-- The byte `[` -/
def chLBracket : Nat := 91
/-- The byte `]` -/
def chRBracket : Nat := 93

/-- Go slice expression `s[lo:hi]`; `none` is the run-time panic
"slice bounds out of range". -/
def slice {α : Type} (s : List α) (lo hi : Nat) : Option (List α) :=
  if lo ≤ hi ∧ hi ≤ s.length then some ((s.take hi).drop lo) else none

/-- Go `strings.Split(s, sep)` for a one-byte separator `sep`: the substrings
between the separators; one more part than there are separators. -/
def Split : GoString → Nat → List GoString
  | [], _ => [[]]
  | c :: cs, sep =>
    if c = sep then [] :: Split cs sep
    else
      match Split cs sep with
      | [] => [[c]]
      | p :: ps => (c :: p) :: ps

/-- Go `strings.Join(elems, sep)`. -/
def Join : List GoString → GoString → GoString
  | [], _ => []
  | [p], _ => p
  | p :: q :: ps, sep => p ++ sep ++ Join (q :: ps) sep

/-! ## Go standard library, package `net` -/

/-- Go `net.IP`: a byte slice; the nil slice is `[]`. -/
abbrev IP := List Nat

/-- Go `net.IPMask`. -/
abbrev IPMask := List Nat

/-- Go `net.IPNet`. -/
structure IPNet where
  IP : IP
  Mask : IPMask
  deriving DecidableEq, Repr

/-- Go `net.IPv4len`. -/
def IPv4len : Nat := 4
/-- Go `net.IPv6len`. -/
def IPv6len : Nat := 16

/-- Bigger than we need, not too big to worry about overflow (`net/parse.go`). -/
def big : Nat := 0xFFFFFF

/-- Loop of `dtoi`: `n` is the number so far, `i` the count of bytes consumed. -/
def dtoi.go : GoString → Nat → Nat → Nat × Nat × Bool
  | [], n, i => if i = 0 then (0, 0, false) else (n, i, true)
  | c :: cs, n, i =>
    if 48 ≤ c ∧ c ≤ 57 then
      let n1 := n * 10 + (c - 48)
      if n1 ≥ big then (big, i, false) else dtoi.go cs n1 (i + 1)
    else if i = 0 then (0, 0, false) else (n, i, true)

/-- Go `net.dtoi`: decimal to integer. Returns number, bytes consumed, success. -/
def dtoi (s : GoString) : Nat × Nat × Bool := dtoi.go s 0 0

/-- Loop of `xtoi`. -/
def xtoi.go : GoString → Nat → Nat → Nat × Nat × Bool
  | [], n, i => if i = 0 then (0, i, false) else (n, i, true)
  | c :: cs, n, i =>
    if 48 ≤ c ∧ c ≤ 57 then
      let n1 := n * 16 + (c - 48)
      if n1 ≥ big then (0, i, false) else xtoi.go cs n1 (i + 1)
    else if 97 ≤ c ∧ c ≤ 102 then
      let n1 := n * 16 + (c - 97) + 10
      if n1 ≥ big then (0, i, false) else xtoi.go cs n1 (i + 1)
    else if 65 ≤ c ∧ c ≤ 70 then
      let n1 := n * 16 + (c - 65) + 10
      if n1 ≥ big then (0, i, false) else xtoi.go cs n1 (i + 1)
    else if i = 0 then (0, i, false) else (n, i, true)

/-- Go `net.xtoi`: hexadecimal to integer. Returns number, bytes consumed, success. -/
def xtoi (s : GoString) : Nat × Nat × Bool := xtoi.go s 0 0

/-- Go `net.v4InV6Prefix`. -/
def v4InV6Prefix : List Nat := [0, 0, 0, 0, 0, 0, 0, 0, 0, 0, 0xff, 0xff]

/-- Go `net.IPv4(a, b, c, d)`: the 16-byte form of the IPv4 address. -/
def IPv4 (a b c d : Nat) : IP := v4InV6Prefix ++ [a, b, c, d]

/-- Loop `for i := 0; i < IPv4len; i++` of `parseIPv4`; the first argument counts the
iterations left (`IPv4len - i`). `none` is `return nil`. -/
def parseIPv4.loop : Nat → Nat → GoString → List Nat → Option (List Nat × GoString)
  | 0, _, s, p => some (p, s)
  | k + 1, i, s, p =>
    if s.length = 0 then none
    else
      let s1 : Option GoString :=
        if i > 0 then (if s.head? ≠ some chDot then none else some (s.drop 1)) else some s
      match s1 with
      | none => none
      | some s2 =>
        match dtoi s2 with
        | (n, c, ok) =>
          if ok = false ∨ n > 0xFF then none
          else if c > 1 ∧ s2.head? = some 48 then none
          else parseIPv4.loop k (i + 1) (s2.drop c) (p.set i (n % 256))

/-- Go `net.parseIPv4`: parse IPv4 address (d.d.d.d). -/
def parseIPv4 (s : GoString) : IP :=
  match parseIPv4.loop IPv4len 0 s [0, 0, 0, 0] with
  | none => []
  | some (p, rest) =>
    if rest.length ≠ 0 then []
    else IPv4 (p.getD 0 0) (p.getD 1 0) (p.getD 2 0) (p.getD 3 0)

/-- Local variables of `parseIPv6`; `ellipsis = none` is Go's `ellipsis = -1`. -/
structure V6State where
  ip : List Nat
  i : Nat
  s : GoString
  ellipsis : Option Nat
  deriving DecidableEq, Repr

/-- Loop `for i < IPv6len` of `parseIPv6`. Every iteration that continues adds 2 to `i`,
so 8 iterations suffice; the first argument bounds the iterations. `none` is
`return nil`, `some st` is the state when the loop is left. -/
def parseIPv6.loop : Nat → V6State → Option V6State
  | 0, st => some st
  | k + 1, st =>
    if ¬ st.i < IPv6len then some st
    else
      match xtoi st.s with
      | (n, c, ok) =>
        if ok = false ∨ n > 0xFFFF then none
        else if c < st.s.length ∧ st.s.get? c = some chDot then
          -- If followed by dot, might be in trailing IPv4.
          if st.ellipsis = none ∧ st.i ≠ IPv6len - IPv4len then none
          else if st.i + IPv4len > IPv6len then none
          else
            let ip4 := parseIPv4 st.s
            if ip4 = [] then none
            else
              some { ip := (((st.ip.set st.i (ip4.getD 12 0)).set (st.i + 1) (ip4.getD 13 0)).set
                        (st.i + 2) (ip4.getD 14 0)).set (st.i + 3) (ip4.getD 15 0),
                     i := st.i + IPv4len, s := [], ellipsis := st.ellipsis }
        else
          -- Save this 16-bit chunk.
          let ip1 := (st.ip.set st.i (n / 256 % 256)).set (st.i + 1) (n % 256)
          let i1 := st.i + 2
          -- Stop at end of string.
          let s1 := st.s.drop c
          if s1.length = 0 then some { ip := ip1, i := i1, s := s1, ellipsis := st.ellipsis }
          -- Otherwise must be followed by colon and more.
          else if s1.head? ≠ some chColon ∨ s1.length = 1 then none
          else
            let s2 := s1.drop 1
            -- Look for ellipsis.
            if s2.head? = some chColon then
              if st.ellipsis ≠ none then none
              else
                let s3 := s2.drop 1
                if s3.length = 0 then some { ip := ip1, i := i1, s := s3, ellipsis := some i1 }
                else parseIPv6.loop k { ip := ip1, i := i1, s := s3, ellipsis := some i1 }
            else parseIPv6.loop k { ip := ip1, i := i1, s := s2, ellipsis := st.ellipsis }

/-- The two loops of `parseIPv6` that expand the ellipsis: with `n = IPv6len - i`,
`for j := i - 1; j >= ellipsis; j-- { ip[j+n] = ip[j] }` and then
`for j := ellipsis + n - 1; j >= ellipsis; j-- { ip[j] = 0 }`. -/
def parseIPv6.expand (ip : List Nat) (i e : Nat) : List Nat :=
  let n := IPv6len - i
  let ip1 := (List.range' e (i - e)).reverse.foldl (fun acc j => acc.set (j + n) (acc.getD j 0)) ip
  (List.range' e n).reverse.foldl (fun acc j => acc.set j 0) ip1

/-- Go `net.parseIPv6`: parse IPv6 address (no zone). -/
def parseIPv6 (s : GoString) : IP :=
  let ip0 : List Nat := List.replicate IPv6len 0
  -- Might have leading ellipsis
  let lead : Bool := decide (s.length ≥ 2 ∧ s.get? 0 = some chColon ∧ s.get? 1 = some chColon)
  let s0 := if lead then s.drop 2 else s
  -- Might be only ellipsis
  if lead = true ∧ s0.length = 0 then ip0
  else
    match parseIPv6.loop 8 { ip := ip0, i := 0, s := s0,
                             ellipsis := if lead then some 0 else none } with
    | none => []
    | some st =>
      -- Must have used entire string.
      if st.s.length ≠ 0 then []
      -- If didn't parse enough, expand ellipsis.
      else if st.i < IPv6len then
        match st.ellipsis with
        | none => []
        | some e => parseIPv6.expand st.ip st.i e
      else if st.ellipsis ≠ none then []
      else st.ip

/-- Loop of `ParseIP` looking for the first `.` or `:` of `s`. -/
def ParseIP.scan (s : GoString) : GoString → IP
  | [] => []
  | c :: cs =>
    if c = chDot then parseIPv4 s
    else if c = chColon then parseIPv6 s
    else ParseIP.scan s cs

/-- Go `net.ParseIP`: parses `s` as an IP address; the result is nil (`[]`) when `s`
is not a valid textual representation, and has 16 bytes otherwise. -/
def ParseIP (s : GoString) : IP := ParseIP.scan s s

/-- Go `IP.To4`: the 4-byte form of an IPv4 address, nil otherwise. -/
def To4 (ip : IP) : IP :=
  if ip.length = IPv4len then ip
  else if ip.length = IPv6len ∧ (ip.take 10).all (fun b => b == 0) = true
      ∧ ip.getD 10 0 = 0xff ∧ ip.getD 11 0 = 0xff then
    (ip.take 16).drop 12
  else []

/-- Loop of `CIDRMask`: `l` bytes still to write, `n` ones still to place. -/
def CIDRMask.go : Nat → Nat → List Nat
  | 0, _ => []
  | l + 1, n =>
    if n ≥ 8 then 0xff :: CIDRMask.go l (n - 8)
    else (0xff - 0xff >>> n) :: CIDRMask.go l 0

/-- Go `net.CIDRMask(ones, bits)`: the mask of `ones` 1 bits followed by 0s up to
`bits` bits; nil when `bits` is not 32 or 128 or `ones > bits`. -/
def CIDRMask (ones bits : Nat) : IPMask :=
  if bits ≠ 8 * IPv4len ∧ bits ≠ 8 * IPv6len then []
  else if ones > bits then []
  else CIDRMask.go (bits / 8) ones

/-- Go `IP.Mask(mask)`: the result of masking `ip` with `mask`. -/
def Mask (ip : IP) (mask : IPMask) : IP :=
  let mask1 :=
    if mask.length = IPv6len ∧ ip.length = IPv4len ∧ (mask.take 12).all (fun b => b == 0xff) = true
    then mask.drop 12 else mask
  let ip1 :=
    if mask1.length = IPv4len ∧ ip.length = IPv6len ∧ ip.take 12 = v4InV6Prefix
    then ip.drop 12 else ip
  let n := ip1.length
  if n ≠ mask1.length then []
  else (List.range n).map (fun i => ip1.getD i 0 &&& mask1.getD i 0)

/-- Go `net.networkNumberAndMask`. -/
def networkNumberAndMask (n : IPNet) : IP × IPMask :=
  let ip4 := To4 n.IP
  if ip4 = [] ∧ n.IP.length ≠ IPv6len then ([], [])
  else
    let ip := if ip4 = [] then n.IP else ip4
    if n.Mask.length = IPv4len then
      if ip.length ≠ IPv4len then ([], []) else (ip, n.Mask)
    else if n.Mask.length = IPv6len then
      if ip.length = IPv4len then (ip, n.Mask.drop 12) else (ip, n.Mask)
    else ([], [])

/-- Go `(*IPNet).Contains(ip)`: reports whether the network includes `ip`. -/
def IPNet.Contains (n : IPNet) (ip : IPFilter.IP) : Bool :=
  match networkNumberAndMask n with
  | (nn, m) =>
    let x := To4 ip
    let ip1 := if x ≠ [] then x else ip
    let l := ip1.length
    if l ≠ nn.length then false
    else (List.range l).all (fun i => nn.getD i 0 &&& m.getD i 0 == ip1.getD i 0 &&& m.getD i 0)

/-- Go `bytealg.IndexByteString(s, c)`: index of the first `c` in `s`, `none` for -1. -/
def IndexByteString : GoString → Nat → Option Nat
  | [], _ => none
  | b :: bs, c => if b = c then some 0 else (IndexByteString bs c).map (fun k => k + 1)

/-- Go `net.ParseCIDR(s)`, its `*IPNet` result; `none` is the result with a non-nil
error. -/
def ParseCIDR (s : GoString) : Option IPNet :=
  match IndexByteString s chSlash with
  | none => none
  | some i =>
    let addr := s.take i
    let mask := s.drop (i + 1)
    let ip4 := parseIPv4 addr
    let iplen := if ip4 = [] then IPv6len else IPv4len
    let ip := if ip4 = [] then parseIPv6 addr else ip4
    match dtoi mask with
    | (n, j, ok) =>
      if ip = [] ∨ ok = false ∨ j ≠ mask.length ∨ n > 8 * iplen then none
      else
        let m := CIDRMask n (8 * iplen)
        some { IP := Mask ip m, Mask := m }

/-! ## HTTP handlers and the middleware layer -/

/-- Go `*http.Request`, the fields a filter function can read. -/
structure Request where
  Method : GoString
  RequestURI : GoString
  Host : GoString
  RemoteAddr : GoString
  deriving DecidableEq, Repr

/-- A method call received by an `http.ResponseWriter`. -/
inductive WriterCall where
  | WriteHeader (code : Nat)
  | Write (body : GoString)
  deriving DecidableEq, Repr

/-- Go `http.ResponseWriter`, as the sequence of calls it has received so far. -/
abbrev ResponseWriter := List WriterCall

/-- Go `http.Handler` / `http.HandlerFunc`: what the handler does to the writer. -/
abbrev HandlerFunc := ResponseWriter → Request → ResponseWriter

/-- FilterFunc represents the filter function signature (`ip.go`, line 17). -/
abbrev FilterFunc := Request → Bool

/-- A middleware handler `func(w, r, h)` of package `layer`: it wraps the handler
that follows it. -/
abbrev Middleware := HandlerFunc → HandlerFunc

/-- Type `Layer` of package `gopkg.in/vinxi/layer.v0`: the registered handlers
with their phase, in registration order. -/
structure Layer where
  stack : List (String × Middleware)

/-- Function `layer.New()`: a layer without handlers. -/
def Layer.New : Layer := { stack := [] }

/-- Method `Layer.Use(phase, handler)`. -/
def Layer.Use (s : Layer) (phase : String) (handler : Middleware) : Layer :=
  { stack := s.stack ++ [(phase, handler)] }

/-- Method `Layer.Run(phase, w, r, h)`: the handlers of the phase run in registration
order, each wrapping the next, and `h` is the innermost handler. -/
def Layer.Run (s : Layer) (phase : String) (h : HandlerFunc) : HandlerFunc :=
  (s.stack.filter (fun e => e.1 == phase)).foldr (fun e k => e.2 k) h

/-! ## `src/ip.go` -/

/-- ForbiddenResponder is used as default function to respond when the IP is not
allowed (`ip.go`, lines 21-24). -/
def ForbiddenResponder : HandlerFunc := fun w _ =>
  (w ++ [WriterCall.WriteHeader 403]) ++
    [WriterCall.Write (bytes "Forbidden: client IP not allowed")]

/-- Filter implements a IP range based authorization filter (`ip.go`, lines 27-36). -/
structure Filter where
  layer : Layer
  responder : HandlerFunc
  filters : List FilterFunc
  ranges : List IPNet

/-- Loop of `parseRanges` (`ip.go`, lines 116-123); `cidrs` is the slice built so far.
The `fmt.Errorf` call of line 119 only builds a value that is dropped. -/
def parseRanges.loop : List GoString → List IPNet → List IPNet
  | [], cidrs => cidrs
  | expr :: rest, cidrs =>
    match ParseCIDR expr with
    | none => parseRanges.loop rest cidrs
    | some cidr => parseRanges.loop rest (cidrs ++ [cidr])

/-- Function `parseRanges` (`ip.go`, lines 114-125). -/
def parseRanges (ranges : List GoString) : List IPNet :=
  parseRanges.loop ranges []

/-- Lines 130-135 of `matchIPInRange`: split by colons and remove the last part when
there is more than one. -/
def matchIPInRange.parts (IP : GoString) : Option (List GoString) :=
  let parts := Split IP chColon
  if parts.length > 1 then slice parts 0 (parts.length - 1) else some parts

/-- Lines 139-141 of `matchIPInRange`: for IPv6 expressions, remove brackets. -/
def matchIPInRange.brackets (newIP : GoString) : Option GoString :=
  if newIP.length > 1 ∧ newIP.get? 0 = some chLBracket then
    slice newIP 1 (newIP.length - 1)
  else some newIP

/-- Lines 130-141 of `matchIPInRange`: the string `newIP` handed to `net.ParseIP`. -/
def matchIPInRange.newIP (IP : GoString) : Option GoString :=
  match matchIPInRange.parts IP with
  | none => none
  | some parts => matchIPInRange.brackets (Join parts [chColon])

/-- Lines 147-152 of `matchIPInRange`: compare against the IP ranges. -/
def matchIPInRange.loop (parsedIP : IPFilter.IP) : List IPNet → Bool
  | [] => false
  | cidr :: rest => if cidr.Contains parsedIP then true else matchIPInRange.loop parsedIP rest

/-- Function `matchIPInRange` (`ip.go`, lines 128-153): compares if a given IP is
contained in a range of IPs. `none` is a run-time panic. -/
def matchIPInRange (ranges : List IPNet) (IP : GoString) : Option Bool :=
  match matchIPInRange.newIP IP with
  | none => none
  | some newIP => some (matchIPInRange.loop (ParseIP newIP) ranges)

/-- Function `New` (`ip.go`, lines 39-45). -/
def New (ranges : List GoString) : Filter :=
  { layer := Layer.New, ranges := parseRanges ranges, responder := ForbiddenResponder,
    filters := [] }

/-- Method `SetResponder` (`ip.go`, lines 48-50). -/
def Filter.SetResponder (f : Filter) (fn : HandlerFunc) : Filter :=
  { f with responder := fn }

/-- Method `Filter` (`ip.go`, lines 54-56): registers new filter functions. -/
def Filter.Filter (f : IPFilter.Filter) (fn : List FilterFunc) : IPFilter.Filter :=
  { f with filters := f.filters ++ fn }

/-- Method `Use` (`ip.go`, lines 60-63); `layer.RequestPhase` is `"request"`. -/
def Filter.Use (f : IPFilter.Filter) (handler : Middleware) : IPFilter.Filter :=
  { f with layer := f.layer.Use "request" handler }

/-- Method `UsePhase` (`ip.go`, lines 67-70). -/
def Filter.UsePhase (f : IPFilter.Filter) (phase : String) (handler : Middleware) :
    IPFilter.Filter :=
  { f with layer := f.layer.Use phase handler }

/-- A call made by the handler that `FilterHTTP` returns. -/
inductive Event where
  /-- Line 91: `filter(r)` for the filter of index `i`, with its result. -/
  | filter (i : Nat) (result : Bool)
  /-- Line 92: `h.ServeHTTP(w, r)`. -/
  | next
  /-- Line 98: `matchIPInRange(f.ranges, r.RemoteAddr)`, with its result. -/
  | matchIP (result : Bool)
  /-- Line 100: `f.responder(w, r)`. -/
  | respond
  /-- Line 106: `f.layer.Run("request", w, r, h)`. -/
  | layerRun
  deriving DecidableEq, Repr

/-- Outcome of one run of the handler: the response writer afterwards and the calls
made, in order. -/
structure Exec where
  w : ResponseWriter
  trace : List Event
  deriving DecidableEq, Repr

/-- Loop of lines 90-95 over the filters from index `i` on: the filter calls made, and
whether the loop called `h.ServeHTTP` and returned from the handler. -/
def FilterHTTP.loop (r : Request) : List FilterFunc → Nat → List Event × Bool
  | [], _ => ([], false)
  | filter :: rest, i =>
    if !filter r then ([Event.filter i false, Event.next], true)
    else
      match FilterHTTP.loop r rest (i + 1) with
      | (t, returned) => (Event.filter i true :: t, returned)

/-- Method `FilterHTTP` (`ip.go`, lines 86-108): the handler it returns for the next
handler `h`, run on writer `w` and request `r`. `none` is a run-time panic. -/
def Filter.FilterHTTP (f : IPFilter.Filter) (h : HandlerFunc) (w : ResponseWriter)
    (r : Request) : Option Exec :=
  match FilterHTTP.loop r f.filters 0 with
  | (t, true) => some { w := h w r, trace := t }
  | (t, false) =>
    match matchIPInRange f.ranges r.RemoteAddr with
    | none => none
    | some false =>
      some { w := f.responder w r, trace := t ++ [Event.matchIP false, Event.respond] }
    | some true =>
      some { w := f.layer.Run "request" h w r, trace := t ++ [Event.matchIP true, Event.layerRun] }

/-- The events that dispatch the request: next handler, denied responder, sub-chain. -/
def Event.isDispatch : Event → Bool
  | Event.next => true
  | Event.respond => true
  | Event.layerRun => true
  | _ => false

/-! ## Specification vocabulary -/

/-- A network as `net.ParseCIDR` builds them: address and mask both of 4 bytes, or
both of 16 bytes. -/
def IPNet.WellFormed (n : IPNet) : Prop :=
  (n.IP.length = 4 ∧ n.Mask.length = 4) ∨ (n.IP.length = 16 ∧ n.Mask.length = 16)

/-- The form in which `Contains` compares an address: the 4-byte form of an IPv4
address (`To4`), any other address as it is. -/
def canon (ip : IP) : IP := if To4 ip ≠ [] then To4 ip else ip

/-- The big-endian integer of a byte sequence. -/
def ipInt : List Nat → Nat
  | [] => 0
  | b :: bs => b * 256 ^ bs.length + ipInt bs

/-- The integer of `ip` with every bit after the first `p` bits cleared. -/
def clearAfter (p : Nat) (ip : List Nat) : Nat :=
  ipInt ip / 2 ^ (8 * ip.length - p) * 2 ^ (8 * ip.length - p)

/-- The bracket step in the words of the specification: from a string that starts with
`[`, one leading `[` is removed and then one trailing `]` if there is one; any other
string is left as it is. -/
def bracketsSpec (t : GoString) : GoString :=
  if t.head? = some chLBracket then
    (if (t.drop 1).getLast? = some chRBracket then (t.drop 1).dropLast else t.drop 1)
  else t

/-- Every element of the sequence is a byte. -/
def AllBytes (l : List Nat) : Prop := ∀ b ∈ l, b < 256

/-- Invariant of the `ip` variable of `parseIPv6`: 16 bytes. -/
def V6Inv (ip : List Nat) : Prop := ip.length = 16 ∧ AllBytes ip

/-- The 16-byte address is an IPv4-mapped address (`::ffff:a.b.c.d`). -/
def Mapped (ip : List Nat) : Prop :=
  (∀ i < 10, ip.getD i 0 = 0) ∧ ip.getD 10 0 = 255 ∧ ip.getD 11 0 = 255

/-! ## Strings: splitting and joining -/

theorem Split_ne_nil (s : GoString) (sep : Nat) : Split s sep ≠ [] := by
  induction s with
  | nil => simp [Split]
  | cons c cs ih =>
    simp only [Split]
    split_ifs
    · simp
    · cases h : Split cs sep <;> simp

theorem Split_no_sep (s : GoString) (sep : Nat) (h : sep ∉ s) : Split s sep = [s] := by
  induction s with
  | nil => simp [Split]
  | cons c cs ih =>
    have hc : ¬ c = sep := fun e => h (by simp [e])
    have hcs : sep ∉ cs := fun e => h (by simp [e])
    simp [Split, hc, ih hcs]

theorem Split_append_sep (s p : GoString) (sep : Nat) (h : sep ∉ p) :
    Split (s ++ sep :: p) sep = Split s sep ++ [p] := by
  induction s with
  | nil => simp [Split, Split_no_sep p sep h]
  | cons c cs ih =>
    by_cases hc : c = sep
    · simp [Split, hc] at ih ⊢
      exact ih
    · simp only [List.cons_append, Split, hc, if_false]
      have ih2 : Split (cs.append (sep :: p)) sep = Split cs sep ++ [p] := ih
      rw [ih2]
      cases hs : Split cs sep with
      | nil => exact absurd hs (Split_ne_nil cs sep)
      | cons q qs => simp

theorem Join_cons_cons (c : Nat) (q : GoString) (qs : List GoString) (sep : GoString) :
    Join ((c :: q) :: qs) sep = c :: Join (q :: qs) sep := by
  cases qs <;> simp [Join]

theorem Join_Split (s : GoString) (sep : Nat) : Join (Split s sep) [sep] = s := by
  induction s with
  | nil => simp [Split, Join]
  | cons c cs ih =>
    cases hs : Split cs sep with
    | nil => exact absurd hs (Split_ne_nil cs sep)
    | cons q qs =>
      rw [hs] at ih
      by_cases hc : c = sep
      · simp [Split, hc, hs, Join, ih]
      · simp [Split, hc, hs, Join_cons_cons, ih]

theorem slice_init {α : Type} (xs : List α) (x : α) :
    slice (xs ++ [x]) 0 ((xs ++ [x]).length - 1) = some xs := by
  simp [slice]

/-! ## Normalisation of the remote address -/

theorem parts_append_port (a p : GoString) (hp : chColon ∉ p) :
    matchIPInRange.parts (a ++ chColon :: p) = some (Split a chColon) := by
  unfold matchIPInRange.parts
  simp only [Split_append_sep a p chColon hp]
  have hne := Split_ne_nil a chColon
  have hlen : (Split a chColon ++ [p]).length > 1 := by
    cases hs : Split a chColon with
    | nil => exact absurd hs hne
    | cons q qs => simp
  simp only [hlen, if_true]
  exact slice_init _ _

theorem newIP_append_port (a p : GoString) (hp : chColon ∉ p) :
    matchIPInRange.newIP (a ++ chColon :: p) = matchIPInRange.brackets a := by
  unfold matchIPInRange.newIP
  rw [parts_append_port a p hp]
  simp only [Join_Split]

theorem newIP_no_colon (a : GoString) (ha : chColon ∉ a) :
    matchIPInRange.newIP a = matchIPInRange.brackets a := by
  unfold matchIPInRange.newIP matchIPInRange.parts
  simp [Split_no_sep a chColon ha, Join]

theorem brackets_bracketed (a : GoString) :
    matchIPInRange.brackets (chLBracket :: (a ++ [chRBracket])) = some a := by
  unfold matchIPInRange.brackets slice
  simp

theorem brackets_total (t : GoString) : ∃ u, matchIPInRange.brackets t = some u := by
  unfold matchIPInRange.brackets slice
  split_ifs with h1 h2
  · exact ⟨_, rfl⟩
  · exact absurd ⟨by omega, by omega⟩ h2
  · exact ⟨_, rfl⟩

theorem parts_total (s : GoString) : ∃ ps, matchIPInRange.parts s = some ps := by
  unfold matchIPInRange.parts slice
  by_cases h : (Split s chColon).length > 1
  · simp [h]
  · simp [h]

theorem newIP_total (s : GoString) : ∃ t, matchIPInRange.newIP s = some t := by
  unfold matchIPInRange.newIP
  obtain ⟨ps, hps⟩ := parts_total s
  rw [hps]
  exact brackets_total _

theorem matchIPInRange_total (R : List IPNet) (s : GoString) :
    ∃ b, matchIPInRange R s = some b := by
  unfold matchIPInRange
  obtain ⟨t, ht⟩ := newIP_total s
  rw [ht]
  exact ⟨_, rfl⟩

theorem matchIPInRange_loop_iff (ip : IP) (R : List IPNet) :
    matchIPInRange.loop ip R = true ↔ ∃ n ∈ R, n.Contains ip = true := by
  induction R with
  | nil => simp [matchIPInRange.loop]
  | cons n rest ih =>
    simp only [matchIPInRange.loop, List.mem_cons, exists_eq_or_imp]
    by_cases h : n.Contains ip = true
    · simp [h]
    · simp [h, ih]

/-! ## Package `net`: shape of the parsed addresses -/

theorem AllBytes_set (l : List Nat) (i v : Nat) (hl : AllBytes l) (hv : v < 256) :
    AllBytes (l.set i v) := by
  intro b hb
  rcases List.mem_or_eq_of_mem_set hb with h | h
  · exact hl b h
  · exact h ▸ hv

theorem AllBytes_getD (l : List Nat) (i : Nat) (hl : AllBytes l) : l.getD i 0 < 256 := by
  by_cases h : i < l.length
  · rw [List.getD_eq_getElem l 0 h]
    exact hl _ (List.getElem_mem h)
  · rw [List.getD_eq_default l 0 (by omega)]
    decide

theorem parseIPv4_loop_bytes (k : Nat) : ∀ (i : Nat) (s : GoString) (p q : List Nat)
    (rest : GoString), AllBytes p → parseIPv4.loop k i s p = some (q, rest) → AllBytes q := by
  induction k with
  | zero =>
    intro i s p q rest hp h
    simp only [parseIPv4.loop, Option.some.injEq, Prod.mk.injEq] at h
    exact h.1 ▸ hp
  | succ k ih =>
    intro i s p q rest hp h
    simp only [parseIPv4.loop] at h
    repeat' split at h
    all_goals first
      | exact ih _ _ _ _ _ (AllBytes_set _ _ _ hp (Nat.mod_lt _ (by decide))) h
      | cases h

theorem parseIPv4_cases (s : GoString) :
    parseIPv4 s = [] ∨ ∃ a b c d, a < 256 ∧ b < 256 ∧ c < 256 ∧ d < 256 ∧
      parseIPv4 s = IPv4 a b c d := by
  unfold parseIPv4
  split
  · exact Or.inl rfl
  · rename_i p rest h
    split
    · exact Or.inl rfl
    · have hp : AllBytes p :=
        parseIPv4_loop_bytes _ _ _ _ _ _ (by intro b hb; simp at hb; omega) h
      exact Or.inr ⟨_, _, _, _, AllBytes_getD _ _ hp, AllBytes_getD _ _ hp,
        AllBytes_getD _ _ hp, AllBytes_getD _ _ hp, rfl⟩

theorem AllBytes_IPv4 (a b c d : Nat) (ha : a < 256) (hb : b < 256) (hc : c < 256)
    (hd : d < 256) : AllBytes (IPv4 a b c d) := by
  intro x hx
  simp [IPv4, v4InV6Prefix] at hx
  omega

theorem parseIPv4_bytes (s : GoString) : AllBytes (parseIPv4 s) := by
  rcases parseIPv4_cases s with h | ⟨a, b, c, d, ha, hb, hc, hd, h⟩
  · rw [h]; intro x hx; simp at hx
  · rw [h]; exact AllBytes_IPv4 a b c d ha hb hc hd

theorem V6Inv_set (ip : List Nat) (i v : Nat) (h : V6Inv ip) (hv : v < 256) :
    V6Inv (ip.set i v) :=
  ⟨by rw [List.length_set]; exact h.1, AllBytes_set _ _ _ h.2 hv⟩

theorem parseIPv6_loop_inv (k : Nat) : ∀ (st st1 : V6State), V6Inv st.ip →
    parseIPv6.loop k st = some st1 → V6Inv st1.ip := by
  induction k with
  | zero =>
    intro st st1 hst h
    simp only [parseIPv6.loop, Option.some.injEq] at h
    exact h ▸ hst
  | succ k ih =>
    intro st st1 hst h
    simp only [parseIPv6.loop] at h
    have hb4 := parseIPv4_bytes st.s
    have hset : V6Inv ((st.ip.set st.i ((xtoi st.s).1 / 256 % 256)).set (st.i + 1)
        ((xtoi st.s).1 % 256)) :=
      V6Inv_set _ _ _ (V6Inv_set _ _ _ hst (Nat.mod_lt _ (by decide)))
        (Nat.mod_lt _ (by decide))
    have hset4 : V6Inv ((((st.ip.set st.i ((parseIPv4 st.s).getD 12 0)).set (st.i + 1)
        ((parseIPv4 st.s).getD 13 0)).set (st.i + 2) ((parseIPv4 st.s).getD 14 0)).set
        (st.i + 3) ((parseIPv4 st.s).getD 15 0)) :=
      V6Inv_set _ _ _ (V6Inv_set _ _ _ (V6Inv_set _ _ _ (V6Inv_set _ _ _ hst
        (AllBytes_getD _ _ hb4)) (AllBytes_getD _ _ hb4)) (AllBytes_getD _ _ hb4))
        (AllBytes_getD _ _ hb4)
    repeat' split at h
    all_goals first
      | exact ih _ _ hset h
      | (cases h <;> first | exact hst | exact hset | exact hset4)

theorem parseIPv6_loop_inv0 (k : Nat) (s0 : GoString) (e : Option Nat) (st1 : V6State)
    (h : parseIPv6.loop k { ip := List.replicate IPv6len 0, i := 0, s := s0, ellipsis := e }
      = some st1) : V6Inv st1.ip :=
  parseIPv6_loop_inv k _ _ ⟨by simp [IPv6len], by
    intro b hb
    rw [List.mem_replicate] at hb
    omega⟩ h

/-- The bound of 8 iterations is never what stops the loop of `parseIPv6`: with `i`
at least `16 - 2 * k`, one more iteration allowed changes nothing. -/
theorem parseIPv6_loop_fuel (k : Nat) : ∀ st : V6State, 16 ≤ st.i + 2 * k →
    parseIPv6.loop (k + 1) st = parseIPv6.loop k st := by
  induction k with
  | zero =>
    intro st h
    have h1 : ¬ st.i < IPv6len := by simp only [IPv6len]; omega
    simp [parseIPv6.loop, h1]
  | succ k ih =>
    intro st h
    rw [parseIPv6.loop]
    conv_rhs => rw [parseIPv6.loop]
    have e1 : ∀ (ip : List Nat) (s : GoString) (e : Option Nat),
        parseIPv6.loop (k + 1) { ip := ip, i := st.i + 2, s := s, ellipsis := e }
          = parseIPv6.loop k { ip := ip, i := st.i + 2, s := s, ellipsis := e } :=
      fun ip s e => ih _ (by simp only []; omega)
    simp only [e1]

theorem parseIPv6_loop_enough (n : Nat) (st : V6State) (h : st.i = 0) :
    parseIPv6.loop (8 + n) st = parseIPv6.loop 8 st := by
  induction n with
  | zero => rfl
  | succ n ih =>
    rw [← ih, ← Nat.add_assoc]
    exact parseIPv6_loop_fuel (8 + n) st (by omega)

theorem V6Inv_foldl_set (js : List Nat) (f : Nat → Nat) (g : List Nat → Nat → Nat)
    (hg : ∀ acc j, AllBytes acc → g acc j < 256) :
    ∀ ip : List Nat, V6Inv ip → V6Inv (js.foldl (fun acc j => acc.set (f j) (g acc j)) ip) := by
  induction js with
  | nil => intro ip h; exact h
  | cons j js ih =>
    intro ip h
    simp only [List.foldl_cons]
    exact ih _ (V6Inv_set _ _ _ h (hg _ _ h.2))

theorem parseIPv6_expand_inv (ip : List Nat) (i e : Nat) (h : V6Inv ip) :
    V6Inv (parseIPv6.expand ip i e) := by
  unfold parseIPv6.expand
  simp only
  apply V6Inv_foldl_set _ (fun j => j) (fun _ _ => 0) (by intro _ _ _; show 0 < 256; decide)
  exact V6Inv_foldl_set _ (fun j => j + (IPv6len - i)) (fun acc j => acc.getD j 0)
    (fun acc j hacc => AllBytes_getD _ _ hacc) ip h

theorem V6Inv_zero : V6Inv (List.replicate IPv6len 0) := by
  refine ⟨by simp [IPv6len], ?_⟩
  intro b hb
  rw [List.mem_replicate] at hb
  omega

theorem parseIPv6_cases (s : GoString) : parseIPv6 s = [] ∨ V6Inv (parseIPv6 s) := by
  unfold parseIPv6
  simp only []
  repeat' split
  all_goals first
    | exact Or.inl rfl
    | exact Or.inr V6Inv_zero
    | exact Or.inr (parseIPv6_loop_inv0 _ _ _ _ (by assumption))
    | exact Or.inr (parseIPv6_expand_inv _ _ _ (parseIPv6_loop_inv0 _ _ _ _ (by assumption)))

theorem V6Inv_IPv4 (a b c d : Nat) (ha : a < 256) (hb : b < 256) (hc : c < 256)
    (hd : d < 256) : V6Inv (IPv4 a b c d) :=
  ⟨rfl, AllBytes_IPv4 a b c d ha hb hc hd⟩

theorem parseIPv4_inv (s : GoString) : parseIPv4 s = [] ∨ V6Inv (parseIPv4 s) := by
  rcases parseIPv4_cases s with h | ⟨a, b, c, d, ha, hb, hc, hd, h⟩
  · exact Or.inl h
  · rw [h]; exact Or.inr (V6Inv_IPv4 a b c d ha hb hc hd)

theorem ParseIP_scan_cases (s : GoString) :
    ∀ t : GoString, ParseIP.scan s t = [] ∨ V6Inv (ParseIP.scan s t) := by
  intro t
  induction t with
  | nil => exact Or.inl rfl
  | cons c cs ih =>
    simp only [ParseIP.scan]
    split_ifs
    · exact parseIPv4_inv s
    · exact parseIPv6_cases s
    · exact ih

/-- `net.ParseIP` returns nil or a 16-byte address. -/
theorem ParseIP_cases (s : GoString) : ParseIP s = [] ∨ V6Inv (ParseIP s) :=
  ParseIP_scan_cases s s

/-! ## Package `net`: masks and networks -/

theorem CIDRMask_go_length (l : Nat) : ∀ n : Nat, (CIDRMask.go l n).length = l := by
  induction l with
  | zero => intro n; rfl
  | succ l ih =>
    intro n
    simp only [CIDRMask.go]
    split_ifs <;> simp [ih]

theorem CIDRMask_32 (p : Nat) (hp : p ≤ 32) : CIDRMask p 32 = CIDRMask.go 4 p := by
  unfold CIDRMask
  simp [IPv4len, IPv6len, Nat.not_lt.mpr hp]

theorem CIDRMask_128 (p : Nat) (hp : p ≤ 128) : CIDRMask p 128 = CIDRMask.go 16 p := by
  unfold CIDRMask
  simp [IPv4len, IPv6len, Nat.not_lt.mpr hp]

theorem Mask_v4 (ip : IP) (m : IPMask) (hip : ip.length = 16)
    (hpre : ip.take 12 = v4InV6Prefix) (hm : m.length = 4) :
    Mask ip m = (List.range 4).map (fun i => (ip.drop 12).getD i 0 &&& m.getD i 0) := by
  unfold Mask
  simp [hip, hm, hpre, IPv4len, IPv6len]

theorem Mask_v6 (ip : IP) (m : IPMask) (hip : ip.length = 16) (hm : m.length = 16) :
    Mask ip m = (List.range 16).map (fun i => ip.getD i 0 &&& m.getD i 0) := by
  unfold Mask
  simp [hip, hm, IPv4len, IPv6len]

theorem ParseCIDR_shape (s : GoString) (R : IPNet) (h : ParseCIDR s = some R) :
    ∃ ip p, V6Inv ip ∧
      ((ip.take 12 = v4InV6Prefix ∧ p ≤ 32 ∧
          R = { IP := Mask ip (CIDRMask p 32), Mask := CIDRMask p 32 }) ∨
       (p ≤ 128 ∧ R = { IP := Mask ip (CIDRMask p 128), Mask := CIDRMask p 128 })) := by
  unfold ParseCIDR at h
  split at h
  · cases h
  · rename_i i hi
    simp only [] at h
    by_cases h4 : parseIPv4 (s.take i) = []
    · simp only [h4, if_true] at h
      split at h
      · cases h
      · rename_i hc
        simp only [not_or] at hc
        rcases parseIPv6_cases (s.take i) with h6 | h6
        · exact absurd h6 hc.1
        · refine ⟨parseIPv6 (s.take i), (dtoi (s.drop (i + 1))).1, h6, Or.inr ⟨?_, ?_⟩⟩
          · have := hc.2.2.2
            simp only [IPv6len] at this
            omega
          · simp only [IPv6len, Option.some.injEq, Nat.reduceMul] at h
            exact h.symm
    · simp only [h4, if_false] at h
      split at h
      · cases h
      · rename_i hc
        simp only [not_or] at hc
        rcases parseIPv4_cases (s.take i) with h0 | ⟨a, b, c, d, ha, hb, hc2, hd, h0⟩
        · exact absurd h0 h4
        · refine ⟨parseIPv4 (s.take i), (dtoi (s.drop (i + 1))).1,
            h0 ▸ V6Inv_IPv4 a b c d ha hb hc2 hd, Or.inl ⟨?_, ?_, ?_⟩⟩
          · rw [h0]; rfl
          · have := hc.2.2.2
            simp only [IPv4len] at this
            omega
          · simp only [IPv4len, Option.some.injEq, Nat.reduceMul] at h
            exact h.symm

theorem getD_map_range (n : Nat) (f : Nat → Nat) (i : Nat) :
    ((List.range n).map f).getD i 0 = if i < n then f i else 0 := by
  by_cases h : i < n
  · rw [List.getD_eq_getElem _ 0 (by simpa using h)]
    simp [h]
  · rw [List.getD_eq_default _ 0 (by simpa using h)]
    simp [h]

theorem masked_facts (L : Nat) (x : Nat → Nat) (m : List Nat) (hx : ∀ i, x i < 256) :
    ((List.range L).map (fun i => x i &&& m.getD i 0)).length = L ∧
    AllBytes ((List.range L).map (fun i => x i &&& m.getD i 0)) ∧
    ∀ i, ((List.range L).map (fun i => x i &&& m.getD i 0)).getD i 0 &&& m.getD i 0
      = ((List.range L).map (fun i => x i &&& m.getD i 0)).getD i 0 := by
  refine ⟨by simp, ?_, ?_⟩
  · intro b hb
    simp only [List.mem_map, List.mem_range] at hb
    obtain ⟨i, _, rfl⟩ := hb
    exact lt_of_le_of_lt Nat.and_le_left (hx i)
  · intro i
    rw [getD_map_range]
    split_ifs
    · rw [Nat.land_assoc, Nat.and_self]
    · simp

/-- What `net.ParseCIDR` returns: address and mask of the same length, 4 or 16; the
mask is the CIDR mask of some prefix length `p`; the address is masked. -/
theorem ParseCIDR_spec (s : GoString) (R : IPNet) (h : ParseCIDR s = some R) :
    ∃ p, (R.IP.length = 4 ∨ R.IP.length = 16) ∧ p ≤ 8 * R.IP.length ∧
      R.Mask = CIDRMask p (8 * R.IP.length) ∧ R.Mask = CIDRMask.go R.IP.length p ∧
      AllBytes R.IP ∧ (∀ i, R.IP.getD i 0 &&& R.Mask.getD i 0 = R.IP.getD i 0) := by
  obtain ⟨ip, p, hinv, h4 | h6⟩ := ParseCIDR_shape s R h
  · obtain ⟨hpre, hp, rfl⟩ := h4
    have hm : (CIDRMask p 32).length = 4 := by rw [CIDRMask_32 p hp, CIDRMask_go_length]
    have hM := Mask_v4 ip (CIDRMask p 32) hinv.1 hpre hm
    have hf := masked_facts 4 (fun i => (ip.drop 12).getD i 0) (CIDRMask p 32)
      (fun i => AllBytes_getD _ _ (fun b hb => hinv.2 b (List.mem_of_mem_drop hb)))
    simp only [hM]
    refine ⟨p, Or.inl hf.1, ?_, ?_, ?_, hf.2.1, hf.2.2⟩
    · rw [hf.1]; omega
    · rw [hf.1]
    · rw [hf.1]; exact CIDRMask_32 p hp
  · obtain ⟨hp, rfl⟩ := h6
    have hm : (CIDRMask p 128).length = 16 := by rw [CIDRMask_128 p hp, CIDRMask_go_length]
    have hM := Mask_v6 ip (CIDRMask p 128) hinv.1 hm
    have hf := masked_facts 16 (fun i => ip.getD i 0) (CIDRMask p 128)
      (fun i => AllBytes_getD _ _ hinv.2)
    simp only [hM]
    refine ⟨p, Or.inr hf.1, ?_, ?_, ?_, hf.2.1, hf.2.2⟩
    · rw [hf.1]; omega
    · rw [hf.1]
    · rw [hf.1]; exact CIDRMask_128 p hp

theorem ParseCIDR_wellFormed (s : GoString) (R : IPNet) (h : ParseCIDR s = some R) :
    R.WellFormed := by
  obtain ⟨p, hlen, _, _, hm, _, _⟩ := ParseCIDR_spec s R h
  have hl : R.Mask.length = R.IP.length := by rw [hm, CIDRMask_go_length]
  rcases hlen with h4 | h16
  · exact Or.inl ⟨h4, by rw [hl, h4]⟩
  · exact Or.inr ⟨h16, by rw [hl, h16]⟩

theorem To4_len4 (ip : IP) (h : ip.length = 4) : To4 ip = ip := by
  unfold To4
  simp [h, IPv4len]

theorem To4_nil : To4 [] = [] := by decide

theorem To4_length (ip : IP) : To4 ip = [] ∨ (To4 ip).length = 4 := by
  unfold To4
  split_ifs with h1 h2
  · exact Or.inr h1
  · right
    simp only [IPv6len] at h2
    simp [h2.1]
  · exact Or.inl rfl

theorem To4_16 (ip : IP) (h : ip.length = 16) : To4 ip ≠ [] ↔ Mapped ip := by
  match ip, h with
  | [a0, a1, a2, a3, a4, a5, a6, a7, a8, a9, a10, a11, a12, a13, a14, a15], _ =>
    unfold To4 Mapped
    simp only [IPv4len, IPv6len]
    constructor
    · intro hne
      split_ifs at hne with h1 h2
      · simp at h1
      · simp at h2
        refine ⟨?_, h2.2.1, h2.2.2⟩
        intro i hi
        interval_cases i <;> simp [h2.1]
      · exact absurd rfl hne
    · intro hm
      obtain ⟨hz, h10, h11⟩ := hm
      have e0 := hz 0 (by decide)
      have e1 := hz 1 (by decide)
      have e2 := hz 2 (by decide)
      have e3 := hz 3 (by decide)
      have e4 := hz 4 (by decide)
      have e5 := hz 5 (by decide)
      have e6 := hz 6 (by decide)
      have e7 := hz 7 (by decide)
      have e8 := hz 8 (by decide)
      have e9 := hz 9 (by decide)
      simp at e0 e1 e2 e3 e4 e5 e6 e7 e8 e9 h10 h11
      subst e0 e1 e2 e3 e4 e5 e6 e7 e8 e9 h10 h11
      simp

theorem canon_length (ip : IP) (h : ip.length = 16) :
    ((canon ip).length = 4 ∧ To4 ip ≠ []) ∨ ((canon ip).length = 16 ∧ To4 ip = [] ∧ canon ip = ip) := by
  unfold canon
  by_cases h4 : To4 ip = []
  · right; simp [h4, h]
  · left
    rcases To4_length ip with h0 | h0
    · exact absurd h0 h4
    · simp [h4, h0]

theorem canon_nil : canon [] = [] := by decide

theorem Contains_eq (n : IPNet) (ip : IP) :
    n.Contains ip =
      (if (canon ip).length ≠ (networkNumberAndMask n).1.length then false
       else (List.range (canon ip).length).all (fun i =>
          (networkNumberAndMask n).1.getD i 0 &&& (networkNumberAndMask n).2.getD i 0
            == (canon ip).getD i 0 &&& (networkNumberAndMask n).2.getD i 0)) := rfl

theorem networkNumberAndMask_v4 (n : IPNet) (hi : n.IP.length = 4) (hm : n.Mask.length = 4) :
    networkNumberAndMask n = (n.IP, n.Mask) := by
  unfold networkNumberAndMask
  have hne : n.IP ≠ [] := by intro e; rw [e] at hi; simp at hi
  simp [To4_len4 n.IP hi, hi, hm, IPv4len, IPv6len, hne]

theorem networkNumberAndMask_v6 (n : IPNet) (hi : n.IP.length = 16) (hm : n.Mask.length = 16)
    (h4 : To4 n.IP = []) : networkNumberAndMask n = (n.IP, n.Mask) := by
  unfold networkNumberAndMask
  simp [h4, hi, hm, IPv4len, IPv6len]

theorem networkNumberAndMask_mapped (n : IPNet) (hi : n.IP.length = 16)
    (hm : n.Mask.length = 16) (h4 : To4 n.IP ≠ []) :
    networkNumberAndMask n = (To4 n.IP, n.Mask.drop 12) := by
  unfold networkNumberAndMask
  have hl : (To4 n.IP).length = 4 := by
    rcases To4_length n.IP with h0 | h0
    · exact absurd h0 h4
    · exact h0
  simp [h4, hi, hm, hl, IPv4len, IPv6len]

theorem networkNumber_length (n : IPNet) (h : n.WellFormed) :
    (networkNumberAndMask n).1.length = 4 ∨ (networkNumberAndMask n).1.length = 16 := by
  rcases h with ⟨hi, hm⟩ | ⟨hi, hm⟩
  · rw [networkNumberAndMask_v4 n hi hm]; exact Or.inl hi
  · by_cases h4 : To4 n.IP = []
    · rw [networkNumberAndMask_v6 n hi hm h4]; exact Or.inr hi
    · rw [networkNumberAndMask_mapped n hi hm h4]
      rcases To4_length n.IP with h0 | h0
      · exact absurd h0 h4
      · exact Or.inl h0

/-- A well-formed network does not contain the nil address. -/
theorem Contains_nil (n : IPNet) (h : n.WellFormed) : n.Contains [] = false := by
  rw [Contains_eq, canon_nil]
  rcases networkNumber_length n h with h0 | h0 <;> simp [h0]

theorem matchIPInRange_loop_nil (R : List IPNet) (hR : ∀ n ∈ R, n.WellFormed) :
    matchIPInRange.loop [] R = false := by
  rw [Bool.eq_false_iff]
  intro h
  obtain ⟨n, hn, hc⟩ := (matchIPInRange_loop_iff [] R).mp h
  rw [Contains_nil n (hR n hn)] at hc
  exact absurd hc (by simp)

/-! ## Masked comparison and leading bits -/

set_option maxRecDepth 100000 in
theorem byte_mask : ∀ p < 8, ∀ x < 256,
    x &&& (255 - 255 >>> p) = x / 2 ^ (8 - p) * 2 ^ (8 - p) := by
  decide

theorem byte_and_255 (x : Nat) (hx : x < 256) : x &&& 255 = x := by
  have h : x &&& (2 ^ 8 - 1) = x % 2 ^ 8 := Nat.and_pow_two_sub_one_eq_mod x 8
  simpa [Nat.mod_eq_of_lt hx] using h

theorem ipInt_lt (xs : List Nat) (h : AllBytes xs) : ipInt xs < 256 ^ xs.length := by
  induction xs with
  | nil => simp [ipInt]
  | cons x xs ih =>
    have hx : x < 256 := h x (by simp)
    have hxs := ih (fun b hb => h b (by simp [hb]))
    simp only [ipInt, List.length_cons, pow_succ]
    nlinarith

theorem CIDRMask_go_zero (L : Nat) : ∀ i, (CIDRMask.go L 0).getD i 0 = 0 := by
  induction L with
  | zero => intro i; simp [CIDRMask.go]
  | succ L ih =>
    intro i
    cases i with
    | zero => simp [CIDRMask.go]
    | succ i => simpa [CIDRMask.go] using ih i

theorem AllBytes_cons (x : Nat) (xs : List Nat) (h : AllBytes (x :: xs)) :
    x < 256 ∧ AllBytes xs :=
  ⟨h x (by simp), fun b hb => h b (by simp [hb])⟩

theorem radix_eq (M x y a b : Nat) (ha : a < M) (hb : b < M) :
    a + M * x = b + M * y ↔ x = y ∧ a = b := by
  constructor
  · intro h
    have h1 : (a + M * x) % M = (b + M * y) % M := by rw [h]
    rw [Nat.add_mul_mod_self_left, Nat.add_mul_mod_self_left,
      Nat.mod_eq_of_lt ha, Nat.mod_eq_of_lt hb] at h1
    subst h1
    have h2 : M * x = M * y := by omega
    exact ⟨Nat.eq_of_mul_eq_mul_left (by omega) h2, rfl⟩
  · rintro ⟨rfl, rfl⟩; rfl

/-- Comparing two byte sequences under the CIDR mask of `p` ones is comparing their
integers without the last `8 * L - p` bits. -/
theorem leading_bits_core (L : Nat) : ∀ (p : Nat) (xs ys : List Nat),
    xs.length = L → ys.length = L → AllBytes xs → AllBytes ys → p ≤ 8 * L →
    ((∀ i < L, xs.getD i 0 &&& (CIDRMask.go L p).getD i 0
        = ys.getD i 0 &&& (CIDRMask.go L p).getD i 0) ↔
      ipInt xs / 2 ^ (8 * L - p) = ipInt ys / 2 ^ (8 * L - p)) := by
  induction L with
  | zero =>
    intro p xs ys hx hy _ _ _
    rw [List.length_eq_zero] at hx hy
    subst hx hy
    simp
  | succ L ih =>
    intro p xs ys hx hy hbx hby hp
    cases xs with
    | nil => simp at hx
    | cons x xs =>
    cases ys with
    | nil => simp at hy
    | cons y ys =>
    simp only [List.length_cons, Nat.add_right_cancel_iff] at hx hy
    obtain ⟨hx256, hbxs⟩ := AllBytes_cons x xs hbx
    obtain ⟨hy256, hbys⟩ := AllBytes_cons y ys hby
    have hX := ipInt_lt xs hbxs
    have hY := ipInt_lt ys hbys
    rw [hx] at hX
    rw [hy] at hY
    rw [Nat.forall_lt_succ_left]
    simp only [List.getD_cons_zero, List.getD_cons_succ, ipInt, hx, hy]
    by_cases hp8 : 8 ≤ p
    · have hgo : CIDRMask.go (L + 1) p = 255 :: CIDRMask.go L (p - 8) := by
        simp [CIDRMask.go, hp8]
      rw [hgo]
      simp only [List.getD_cons_zero, List.getD_cons_succ]
      rw [ih (p - 8) xs ys hx hy hbxs hbys (by omega), byte_and_255 x hx256,
        byte_and_255 y hy256]
      have he : 8 * (L + 1) - p = 8 * L - (p - 8) := by omega
      rw [he]
      have hle : 8 * L - (p - 8) ≤ 8 * L := by omega
      generalize 8 * L - (p - 8) = e at hle ⊢
      have h256 : 256 ^ L = 2 ^ e * 2 ^ (8 * L - e) := by
        rw [← pow_add, show e + (8 * L - e) = 8 * L by omega, pow_mul]
        norm_num
      have hD : 0 < 2 ^ e := by positivity
      have e1 : ∀ (a A : Nat), (a * 256 ^ L + A) / 2 ^ e = A / 2 ^ e + 2 ^ (8 * L - e) * a := by
        intro a A
        rw [h256, show a * (2 ^ e * 2 ^ (8 * L - e)) + A = A + 2 ^ e * (2 ^ (8 * L - e) * a) by ring]
        exact Nat.add_mul_div_left _ _ hD
      rw [e1, e1]
      have hXd : ipInt xs / 2 ^ e < 2 ^ (8 * L - e) :=
        Nat.div_lt_of_lt_mul (by rw [← h256]; exact hX)
      have hYd : ipInt ys / 2 ^ e < 2 ^ (8 * L - e) :=
        Nat.div_lt_of_lt_mul (by rw [← h256]; exact hY)
      exact (radix_eq _ _ _ _ _ hXd hYd).symm
    · have hp7 : p < 8 := by omega
      have hgo : CIDRMask.go (L + 1) p = (255 - 255 >>> p) :: CIDRMask.go L 0 := by
        simp [CIDRMask.go, hp8]
      rw [hgo]
      simp only [List.getD_cons_zero, List.getD_cons_succ, CIDRMask_go_zero, Nat.and_zero,
        implies_true, and_true]
      rw [byte_mask p hp7 x hx256, byte_mask p hp7 y hy256]
      have hk : 0 < 2 ^ (8 - p) := by positivity
      rw [Nat.mul_right_cancel_iff hk]
      have he : 8 * (L + 1) - p = 8 * L + (8 - p) := by omega
      have e2 : ∀ (a A : Nat), A < 256 ^ L →
          (a * 256 ^ L + A) / 2 ^ (8 * (L + 1) - p) = a / 2 ^ (8 - p) := by
        intro a A hA
        rw [he, pow_add, ← Nat.div_div_eq_div_mul, pow_mul]
        have h0 : (a * 256 ^ L + A) / 256 ^ L = a := by
          rw [show a * 256 ^ L + A = A + 256 ^ L * a by ring,
            Nat.add_mul_div_left _ _ (by positivity), Nat.div_eq_of_lt hA, Nat.zero_add]
        norm_num at h0 ⊢
        rw [h0]
      rw [e2 x _ hX, e2 y _ hY]

theorem CIDRMask_go_le (L : Nat) : ∀ p i, (CIDRMask.go L p).getD i 0 ≤ 255 := by
  induction L with
  | zero => intro p i; simp [CIDRMask.go]
  | succ L ih =>
    intro p i
    simp only [CIDRMask.go]
    split_ifs <;> cases i with
    | zero => simp
    | succ i => simpa using ih _ i

theorem CIDRMask_go_ff_down (L : Nat) : ∀ p i j, j ≤ i →
    (CIDRMask.go L p).getD i 0 = 255 → (CIDRMask.go L p).getD j 0 = 255 := by
  induction L with
  | zero => intro p i j _ h; simp [CIDRMask.go] at h
  | succ L ih =>
    intro p i j hji h
    by_cases hp8 : 8 ≤ p
    · have hgo : CIDRMask.go (L + 1) p = 255 :: CIDRMask.go L (p - 8) := by
        simp [CIDRMask.go, hp8]
      rw [hgo] at h ⊢
      cases j with
      | zero => simp
      | succ j =>
        cases i with
        | zero => omega
        | succ i =>
          simp only [List.getD_cons_succ] at h ⊢
          exact ih _ i j (by omega) h
    · have hgo : CIDRMask.go (L + 1) p = (255 - 255 >>> p) :: CIDRMask.go L 0 := by
        simp [CIDRMask.go, hp8]
      rw [hgo] at h ⊢
      cases i with
      | zero =>
        have hj : j = 0 := by omega
        subst hj
        exact h
      | succ i =>
        simp only [List.getD_cons_succ, CIDRMask_go_zero] at h
        omega

theorem AllBytes_canon (ip : IP) (h : AllBytes ip) : AllBytes (canon ip) := by
  unfold canon To4
  intro b hb
  split_ifs at hb with h1 h2 h3 h4 h5
  · exact h b hb
  · exact h b hb
  · exact h b (List.mem_of_mem_take (List.mem_of_mem_drop hb))
  · exact h b hb
  · simp at h5
  · exact h b hb

theorem clearAfter_eq_iff (p : Nat) (xs ys : List Nat) (h : xs.length = ys.length) :
    clearAfter p xs = clearAfter p ys ↔
      ipInt xs / 2 ^ (8 * ys.length - p) = ipInt ys / 2 ^ (8 * ys.length - p) := by
  unfold clearAfter
  rw [h, Nat.mul_right_cancel_iff (by positivity)]

theorem all_range_iff (l : Nat) (a b : Nat → Nat) :
    (List.range l).all (fun i => a i == b i) = true ↔ ∀ i < l, a i = b i := by
  simp [List.all_eq_true]

/-- The mask of a parsed network is the loop result for its prefix length. -/
theorem mask_of_CIDRMask (R : IPNet) (p : Nat) (hlen : R.IP.length = 4 ∨ R.IP.length = 16)
    (hml : R.Mask.length = R.IP.length) (hp : R.Mask = CIDRMask p (8 * R.IP.length)) :
    p ≤ 8 * R.IP.length ∧ R.Mask = CIDRMask.go R.IP.length p := by
  have hne : R.Mask ≠ [] := by
    intro e
    rw [e] at hml
    simp at hml
    omega
  by_cases hle : p ≤ 8 * R.IP.length
  · refine ⟨hle, ?_⟩
    rcases hlen with h | h
    · rw [h] at hp hle ⊢
      rw [hp]; exact CIDRMask_32 p hle
    · rw [h] at hp hle ⊢
      rw [hp]; exact CIDRMask_128 p hle
  · exfalso
    apply hne
    rw [hp]
    unfold CIDRMask
    simp [Nat.lt_of_not_le hle]

/-- A parsed network contains a parsed address of its own family exactly when the two
agree on the leading `p` bits. -/
theorem Contains_iff_leading_bits (s : GoString) (R : IPNet) (p : Nat) (A : IP)
    (hR : ParseCIDR s = some R) (hp : R.Mask = CIDRMask p (8 * R.IP.length))
    (hA : V6Inv A) (hfam : (canon A).length = R.IP.length) :
    R.Contains A = true ↔ clearAfter p (canon A) = clearAfter p R.IP := by
  obtain ⟨p0, hlen, _, _, hm0, hbR, hmasked⟩ := ParseCIDR_spec s R hR
  have hml : R.Mask.length = R.IP.length := by rw [hm0, CIDRMask_go_length]
  obtain ⟨hple, hgo⟩ := mask_of_CIDRMask R p hlen hml hp
  have hbA : AllBytes (canon A) := AllBytes_canon A hA.2
  have hcore := leading_bits_core R.IP.length p (canon A) R.IP hfam rfl hbA hbR hple
  rw [clearAfter_eq_iff p _ _ hfam, ← hcore, ← hgo, Contains_eq]
  have hgen : ∀ nn : IP, networkNumberAndMask R = (nn, R.Mask) → nn = R.IP →
      ((if (canon A).length ≠ (networkNumberAndMask R).1.length then false
        else (List.range (canon A).length).all (fun i =>
          (networkNumberAndMask R).1.getD i 0 &&& (networkNumberAndMask R).2.getD i 0
            == (canon A).getD i 0 &&& (networkNumberAndMask R).2.getD i 0)) = true ↔
      ∀ i < R.IP.length, (canon A).getD i 0 &&& R.Mask.getD i 0
        = R.IP.getD i 0 &&& R.Mask.getD i 0) := by
    intro nn hnn he
    subst he
    rw [hnn]
    simp only [hfam, ne_eq, not_true_eq_false, if_false]
    rw [all_range_iff]
    exact ⟨fun h i hi => (h i hi).symm, fun h i hi => (h i hi).symm⟩
  rcases hlen with h4 | h16
  · exact hgen _ (networkNumberAndMask_v4 R h4 (by rw [hml, h4])) rfl
  · by_cases hto : To4 R.IP = []
    · exact hgen _ (networkNumberAndMask_v6 R h16 (by rw [hml, h16]) hto) rfl
    · rw [networkNumberAndMask_mapped R h16 (by rw [hml, h16]) hto]
      have hl4 : (To4 R.IP).length = 4 := by
        rcases To4_length R.IP with h0 | h0
        · exact absurd h0 hto
        · exact h0
      have hne : (canon A).length ≠ (To4 R.IP).length := by rw [hfam, h16, hl4]; decide
      rw [if_pos hne]
      constructor
      · intro h; exact absurd h (by simp)
      · intro hall
        exfalso
        have hmap : Mapped R.IP := (To4_16 R.IP h16).mp hto
        rcases canon_length A hA.1 with ⟨hc4, _⟩ | ⟨_, hA4, hcA⟩
        · rw [hfam, h16] at hc4; omega
        · rw [hcA] at hall
          have hm11 : R.Mask.getD 11 0 = 255 := by
            have h1 := hmasked 11
            rw [hmap.2.2] at h1
            have h2 : 255 &&& R.Mask.getD 11 0 ≤ R.Mask.getD 11 0 := Nat.and_le_right
            have h3 := CIDRMask_go_le R.IP.length p 11
            rw [← hgo] at h3
            omega
          have hff : ∀ j ≤ 11, R.Mask.getD j 0 = 255 := by
            intro j hj
            rw [hgo] at hm11 ⊢
            exact CIDRMask_go_ff_down _ p 11 j hj hm11
          have heq : ∀ j ≤ 11, A.getD j 0 = R.IP.getD j 0 := by
            intro j hj
            have h1 := hall j (by omega)
            rw [hff j hj, byte_and_255 _ (AllBytes_getD _ _ hA.2),
              byte_and_255 _ (AllBytes_getD _ _ hbR)] at h1
            exact h1
          have hmA : Mapped A := by
            refine ⟨fun i hi => ?_, ?_, ?_⟩
            · rw [heq i (by omega)]; exact hmap.1 i hi
            · rw [heq 10 (by omega)]; exact hmap.2.1
            · rw [heq 11 (by omega)]; exact hmap.2.2
          exact absurd hA4 ((To4_16 A hA.1).mpr hmA)

/-! ## Helper lemmas on the handler -/

theorem matchIPInRange_eq (R : List IPNet) (raw t : GoString)
    (ht : matchIPInRange.newIP raw = some t) :
    matchIPInRange R raw = some (matchIPInRange.loop (ParseIP t) R) := by
  unfold matchIPInRange
  rw [ht]

theorem parseRanges_loop_eq (xs : List GoString) :
    ∀ acc : List IPNet, parseRanges.loop xs acc = acc ++ xs.filterMap ParseCIDR := by
  induction xs with
  | nil => intro acc; simp [parseRanges.loop]
  | cons x xs ih =>
    intro acc
    simp only [parseRanges.loop]
    cases h : ParseCIDR x with
    | none => simp [ih, List.filterMap_cons, h]
    | some n => simp [ih, List.filterMap_cons, h]

theorem parseRanges_wellFormed (xs : List GoString) : ∀ n ∈ parseRanges xs, n.WellFormed := by
  intro n hn
  unfold parseRanges at hn
  rw [parseRanges_loop_eq, List.nil_append, List.mem_filterMap] at hn
  obtain ⟨x, _, hx⟩ := hn
  exact ParseCIDR_wellFormed x n hx

theorem FilterHTTP_loop_dispatch (r : Request) (fs : List FilterFunc) :
    ∀ i : Nat, ((FilterHTTP.loop r fs i).2 = true ∧
        (FilterHTTP.loop r fs i).1.filter Event.isDispatch = [Event.next]) ∨
      ((FilterHTTP.loop r fs i).2 = false ∧
        (FilterHTTP.loop r fs i).1.filter Event.isDispatch = []) := by
  induction fs with
  | nil => intro i; right; simp [FilterHTTP.loop]
  | cons f fs ih =>
    intro i
    simp only [FilterHTTP.loop]
    cases hf : f r with
    | false => left; simp [Event.isDispatch]
    | true =>
      simp only [Bool.not_true, Bool.false_eq_true, if_false]
      rcases ih (i + 1) with ⟨h1, h2⟩ | ⟨h1, h2⟩
      · left; simp [h1, h2, Event.isDispatch]
      · right; simp [h1, h2, Event.isDispatch]

/-- The loop over the filters leaves the handler exactly when some filter returns
false. -/
theorem FilterHTTP_loop_returned_iff (r : Request) (fs : List FilterFunc) :
    ∀ i : Nat, (FilterHTTP.loop r fs i).2 = true ↔ ∃ f ∈ fs, f r = false := by
  induction fs with
  | nil => intro i; simp [FilterHTTP.loop]
  | cons f fs ih =>
    intro i
    simp only [FilterHTTP.loop]
    cases hf : f r with
    | false => simp [hf]
    | true => simp [hf, ih (i + 1)]

theorem FilterHTTP_no_filters (f : IPFilter.Filter) (h : HandlerFunc) (w : ResponseWriter)
    (r : Request) (hf : f.filters = []) (b : Bool)
    (hm : matchIPInRange f.ranges r.RemoteAddr = some b) :
    f.FilterHTTP h w r =
      some (if b then { w := f.layer.Run "request" h w r,
                        trace := [Event.matchIP true, Event.layerRun] }
            else { w := f.responder w r, trace := [Event.matchIP false, Event.respond] }) := by
  unfold Filter.FilterHTTP
  rw [hf]
  simp only [FilterHTTP.loop, hm]
  cases b <;> simp

/-! ## The claims -/

/-- C1: for every successfully parsed CIDR range `R` with prefix length `p` (its mask is
the CIDR mask of `p` ones) and every remote address `raw` whose normalised form `t`
parses to an address of the family of `R` (the form `Contains` compares, 4 bytes for an
IPv4 address and 16 bytes otherwise, has the length of the base address of `R`),
`matchIPInRange [R] raw` is true if and only if the address with every bit after the
first `p` cleared equals the base address of `R` with every bit after the first `p`
cleared. -/
theorem matchIPInRange_single_iff (s raw t : GoString) (R : IPNet) (p : Nat)
    (hR : ParseCIDR s = some R) (hp : R.Mask = CIDRMask p (8 * R.IP.length))
    (ht : matchIPInRange.newIP raw = some t) (hA : ParseIP t ≠ [])
    (hfam : (canon (ParseIP t)).length = R.IP.length) :
    matchIPInRange [R] raw = some true ↔
      clearAfter p (canon (ParseIP t)) = clearAfter p R.IP := by
  have hinv : V6Inv (ParseIP t) := by
    rcases ParseIP_cases t with h | h
    · exact absurd h hA
    · exact h
  rw [matchIPInRange_eq [R] raw t ht, Option.some.injEq, matchIPInRange_loop_iff,
    ← Contains_iff_leading_bits s R p (ParseIP t) hR hp hinv hfam]
  simp

/-- Witness of C1: the range `192.168.0.1/27` and the remote address `192.168.0.26:1234`
(IPv4), the range `::1/64` and the remote address `[::1]:3223` (IPv6). -/
theorem matchIPInRange_single_iff_witness :
    (matchIPInRange [{ IP := [192, 168, 0, 0], Mask := [255, 255, 255, 224] }]
        (bytes "192.168.0.26:1234") = some true ↔
      clearAfter 27 (canon (ParseIP (bytes "192.168.0.26"))) = clearAfter 27 [192, 168, 0, 0]) ∧
    (matchIPInRange [{ IP := List.replicate 16 0,
                       Mask := List.replicate 8 255 ++ List.replicate 8 0 }]
        (bytes "[::1]:3223") = some true ↔
      clearAfter 64 (canon (ParseIP (bytes "::1"))) = clearAfter 64 (List.replicate 16 0)) :=
  ⟨matchIPInRange_single_iff (bytes "192.168.0.1/27") (bytes "192.168.0.26:1234")
      (bytes "192.168.0.26") { IP := [192, 168, 0, 0], Mask := [255, 255, 255, 224] } 27
      (by decide) (by decide) (by decide) (by decide) (by decide),
   matchIPInRange_single_iff (bytes "::1/64") (bytes "[::1]:3223") (bytes "::1")
      { IP := List.replicate 16 0, Mask := List.replicate 8 255 ++ List.replicate 8 0 } 64
      (by decide) (by decide) (by decide) (by decide) (by decide)⟩

/-- C2: the claim says a request is bypassed exactly when some registered filter
function returns true. The handler does the opposite: with the single filter that
returns true, the request from `128.0.0.1` to a filter for `127.0.0.1/8` is not
bypassed (the range check runs and the denied responder answers), and with the single
filter that returns false the same request is bypassed (the next handler is called and
the range check is skipped). -/
theorem FilterHTTP_bypass_inverted :
    ((New [bytes "127.0.0.1/8"]).Filter [fun _ => true]).FilterHTTP
        (fun w _ => w ++ [WriterCall.Write (bytes "next")]) []
        { Method := bytes "GET", RequestURI := bytes "/", Host := bytes "example.com",
          RemoteAddr := bytes "128.0.0.1" }
      = some { w := [WriterCall.WriteHeader 403,
                     WriterCall.Write (bytes "Forbidden: client IP not allowed")],
               trace := [Event.filter 0 true, Event.matchIP false, Event.respond] } ∧
    ((New [bytes "127.0.0.1/8"]).Filter [fun _ => false]).FilterHTTP
        (fun w _ => w ++ [WriterCall.Write (bytes "next")]) []
        { Method := bytes "GET", RequestURI := bytes "/", Host := bytes "example.com",
          RemoteAddr := bytes "128.0.0.1" }
      = some { w := [WriterCall.Write (bytes "next")],
               trace := [Event.filter 0 false, Event.next] } := by
  decide

/-- C3: for every range list `R`, every address string `a` without `:` and every port
string `p` without `:`, `matchIPInRange R (a ++ ":" ++ p) = matchIPInRange R a`. -/
theorem matchIPInRange_port_stripped (R : List IPNet) (a p : GoString)
    (ha : chColon ∉ a) (hp : chColon ∉ p) :
    matchIPInRange R (a ++ bytes ":" ++ p) = matchIPInRange R a := by
  have e : bytes ":" = [chColon] := by decide
  have e2 : a ++ bytes ":" ++ p = a ++ chColon :: p := by rw [e]; simp
  unfold matchIPInRange
  rw [e2, newIP_append_port a p hp, newIP_no_colon a ha]

/-- Witness of C3: the range `127.0.0.1/8` allows both `127.0.0.1` and
`127.0.0.1:1234`. -/
theorem matchIPInRange_port_stripped_witness :
    matchIPInRange (parseRanges [bytes "127.0.0.1/8"])
        (bytes "127.0.0.1" ++ bytes ":" ++ bytes "1234")
      = matchIPInRange (parseRanges [bytes "127.0.0.1/8"]) (bytes "127.0.0.1") ∧
    matchIPInRange (parseRanges [bytes "127.0.0.1/8"]) (bytes "127.0.0.1") = some true ∧
    matchIPInRange (parseRanges [bytes "127.0.0.1/8"]) (bytes "127.0.0.1:1234") = some true :=
  ⟨matchIPInRange_port_stripped (parseRanges [bytes "127.0.0.1/8"]) (bytes "127.0.0.1")
      (bytes "1234") (by decide) (by decide), by decide, by decide⟩

/-- C4: for every list `R` of well-formed ranges, every string `a` and every port string
`p` without `:`, the normalisation inside `matchIPInRange` maps `"[" ++ a ++ "]:" ++ p` to
exactly `a`, and `matchIPInRange R ("[" ++ a ++ "]:" ++ p)` is true if and only if `a`
parses as an IP literal and some range of `R` contains it. -/
theorem matchIPInRange_bracketed_port (R : List IPNet) (a p : GoString)
    (hp : chColon ∉ p) (hR : ∀ n ∈ R, n.WellFormed) :
    matchIPInRange.newIP (bytes "[" ++ a ++ bytes "]:" ++ p) = some a ∧
    (matchIPInRange R (bytes "[" ++ a ++ bytes "]:" ++ p) = some true ↔
      (ParseIP a ≠ [] ∧ ∃ n ∈ R, n.Contains (ParseIP a) = true)) := by
  have e1 : bytes "[" = [chLBracket] := by decide
  have e2 : bytes "]:" = [chRBracket, chColon] := by decide
  have e3 : bytes "[" ++ a ++ bytes "]:" ++ p
      = (chLBracket :: (a ++ [chRBracket])) ++ chColon :: p := by
    rw [e1, e2]; simp
  have hn : matchIPInRange.newIP (bytes "[" ++ a ++ bytes "]:" ++ p) = some a := by
    rw [e3, newIP_append_port _ p hp, brackets_bracketed]
  refine ⟨hn, ?_⟩
  rw [matchIPInRange_eq R _ a hn, Option.some.injEq, matchIPInRange_loop_iff]
  constructor
  · intro h
    refine ⟨?_, h⟩
    intro hnil
    obtain ⟨n, hn1, hn2⟩ := h
    rw [hnil, Contains_nil n (hR n hn1)] at hn2
    exact absurd hn2 (by simp)
  · intro h
    exact h.2

/-- Witness of C4: the range `::1/64` allows the remote address `[::1]:3223`. -/
theorem matchIPInRange_bracketed_port_witness :
    (matchIPInRange.newIP (bytes "[" ++ bytes "::1" ++ bytes "]:" ++ bytes "3223")
        = some (bytes "::1") ∧
      (matchIPInRange (parseRanges [bytes "::1/64"])
          (bytes "[" ++ bytes "::1" ++ bytes "]:" ++ bytes "3223") = some true ↔
        (ParseIP (bytes "::1") ≠ [] ∧
          ∃ n ∈ parseRanges [bytes "::1/64"], n.Contains (ParseIP (bytes "::1")) = true))) ∧
    matchIPInRange (parseRanges [bytes "::1/64"]) (bytes "[::1]:3223") = some true :=
  ⟨matchIPInRange_bracketed_port (parseRanges [bytes "::1/64"]) (bytes "::1") (bytes "3223")
      (by decide) (parseRanges_wellFormed [bytes "::1/64"]), by decide⟩

/-- C5: the claim says the range `::1/64` allows the bracketed literal `[::1]` given
without a port. The code splits `[::1]` on `:`, drops the last part `1]` as if it were a
port, turns the rest `[:` into the empty string, and denies the request, although the
range contains the address `::1`. -/
theorem matchIPInRange_bracketed_no_port_denied :
    matchIPInRange.parts (bytes "[::1]") = some [bytes "[", bytes ""] ∧
    matchIPInRange.newIP (bytes "[::1]") = some (bytes "") ∧
    matchIPInRange (parseRanges [bytes "::1/64"]) (bytes "[::1]") = some false ∧
    matchIPInRange.loop (ParseIP (bytes "::1")) (parseRanges [bytes "::1/64"]) = true := by
  decide

theorem Split_length_of_mem (t : GoString) (sep : Nat) (h : sep ∈ t) :
    1 < (Split t sep).length := by
  induction t with
  | nil => simp at h
  | cons c cs ih =>
    have hne := Split_ne_nil cs sep
    by_cases hc : c = sep
    · simp only [Split, hc, if_true, List.length_cons]
      have : 0 < (Split cs sep).length := List.length_pos.mpr hne
      omega
    · have hcs : sep ∈ cs := by
        rcases List.mem_cons.mp h with e | e
        · exact absurd e.symm hc
        · exact e
      have := ih hcs
      simp only [Split, hc, if_false]
      cases hs : Split cs sep with
      | nil => exact absurd hs hne
      | cons q qs => rw [hs] at this; simpa using this

theorem Join_dropLast_length (sep : GoString) (hsep : 0 < sep.length) (rest : List GoString) :
    ∀ p q : GoString, (Join (p :: q :: rest).dropLast sep).length
      < (Join (p :: q :: rest) sep).length := by
  induction rest with
  | nil =>
    intro p q
    simp [Join]
    exact Or.inl hsep
  | cons r rest ih =>
    intro p q
    have h1 := ih q r
    have e : (p :: q :: r :: rest).dropLast = p :: q :: (r :: rest).dropLast := by
      simp [List.dropLast]
    have e2 : (q :: r :: rest).dropLast = q :: (r :: rest).dropLast := by
      simp [List.dropLast]
    rw [e]
    rw [e2] at h1
    simp only [Join, List.length_append] at h1 ⊢
    omega

theorem brackets_length (u v : GoString) (h : matchIPInRange.brackets u = some v) :
    v.length ≤ u.length := by
  unfold matchIPInRange.brackets slice at h
  split_ifs at h
  · simp only [Option.some.injEq] at h
    rw [← h]
    simp
    omega
  · simp only [Option.some.injEq] at h
    rw [h]

theorem newIP_length_lt (t u : GoString) (hc : chColon ∈ t)
    (h : matchIPInRange.newIP t = some u) : u.length < t.length := by
  unfold matchIPInRange.newIP matchIPInRange.parts slice at h
  have hlen := Split_length_of_mem t chColon hc
  simp only [hlen, if_true, Nat.zero_le, true_and, Nat.sub_le, List.drop_zero,
    ← List.dropLast_eq_take] at h
  have hb := brackets_length _ _ h
  have hj := Join_Split t chColon
  cases hs : Split t chColon with
  | nil => rw [hs] at hlen; simp at hlen
  | cons p ps =>
    cases ps with
    | nil => rw [hs] at hlen; simp at hlen
    | cons q rest =>
      rw [hs] at hb hj
      have := Join_dropLast_length [chColon] (by simp) rest p q
      rw [hj] at this
      omega

/-- C6, the claim as stated fails: the normal form of `[::1]:3223` is `::1`, and
normalising `::1` again gives `:`. -/
theorem newIP_not_idempotent :
    matchIPInRange.newIP (bytes "[::1]:3223") = some (bytes "::1") ∧
    matchIPInRange.newIP (bytes "::1") = some (bytes ":") ∧
    (matchIPInRange.newIP (bytes "[::1]:3223")).bind matchIPInRange.newIP
      ≠ matchIPInRange.newIP (bytes "[::1]:3223") := by
  decide

/-- A string is its own normal form exactly when it contains no `:` and is not a
string of more than one byte that starts with `[`. -/
theorem newIP_fixed_iff (t : GoString) :
    matchIPInRange.newIP t = some t ↔
      (chColon ∉ t ∧ ¬ (1 < t.length ∧ t.get? 0 = some chLBracket)) := by
  constructor
  · intro h
    have hc : chColon ∉ t := by
      intro hc
      have := newIP_length_lt t t hc h
      omega
    refine ⟨hc, ?_⟩
    intro hb
    rw [newIP_no_colon t hc] at h
    have hb2 : t.length > 1 ∧ t.get? 0 = some chLBracket := hb
    unfold matchIPInRange.brackets slice at h
    rw [if_pos hb2] at h
    split_ifs at h
    simp only [Option.some.injEq] at h
    have := congrArg List.length h
    simp at this
    omega
  · rintro ⟨hc, hb⟩
    rw [newIP_no_colon t hc]
    unfold matchIPInRange.brackets
    have hb2 : ¬ (t.length > 1 ∧ t.get? 0 = some chLBracket) := hb
    rw [if_neg hb2]

/-- C6, as amended: for every raw string `s` whose normal form `t` contains no `:` and
is not a string of more than one byte that starts with `[`, normalising twice gives the
same as normalising once. -/
theorem newIP_idempotent (s t : GoString) (hs : matchIPInRange.newIP s = some t)
    (hc : chColon ∉ t) (hb : ¬ (1 < t.length ∧ t.get? 0 = some chLBracket)) :
    (matchIPInRange.newIP s).bind matchIPInRange.newIP = matchIPInRange.newIP s := by
  rw [hs, Option.some_bind]
  exact (newIP_fixed_iff t).mpr ⟨hc, hb⟩

/-- Witness of C6 as amended: the remote address `127.0.0.1:1234`, of normal form
`127.0.0.1`. -/
theorem newIP_idempotent_witness :
    matchIPInRange.newIP (bytes "127.0.0.1:1234") = some (bytes "127.0.0.1") ∧
    (matchIPInRange.newIP (bytes "127.0.0.1:1234")).bind matchIPInRange.newIP
      = matchIPInRange.newIP (bytes "127.0.0.1:1234") :=
  ⟨by decide, newIP_idempotent (bytes "127.0.0.1:1234") (bytes "127.0.0.1") (by decide)
    (by decide) (by decide)⟩

/-- C7: for every list `R` of well-formed ranges and every remote address `raw` whose
normalised form `t` does not parse as an IP literal, `matchIPInRange R raw` returns false
(no panic), and the handler of a filter with these ranges and no filter function calls
the denied responder and nothing else. -/
theorem matchIPInRange_unparseable (R : List IPNet) (raw t : GoString)
    (hR : ∀ n ∈ R, n.WellFormed) (ht : matchIPInRange.newIP raw = some t)
    (hp : ParseIP t = []) :
    matchIPInRange R raw = some false ∧
    ∀ (f : IPFilter.Filter) (h : HandlerFunc) (w : ResponseWriter) (r : Request),
      f.ranges = R → f.filters = [] → r.RemoteAddr = raw →
      f.FilterHTTP h w r =
        some { w := f.responder w r, trace := [Event.matchIP false, Event.respond] } := by
  have hm : matchIPInRange R raw = some false := by
    rw [matchIPInRange_eq R raw t ht, hp, matchIPInRange_loop_nil R hR]
  refine ⟨hm, ?_⟩
  intro f h w r hfR hff hr
  rw [FilterHTTP_no_filters f h w r hff false (by rw [hfR, hr]; exact hm)]
  simp

/-- Witness of C7: the remote address `example.com:80` with the range `127.0.0.1/8`. -/
theorem matchIPInRange_unparseable_witness :
    matchIPInRange.newIP (bytes "example.com:80") = some (bytes "example.com") ∧
    ParseIP (bytes "example.com") = [] ∧
    matchIPInRange (parseRanges [bytes "127.0.0.1/8"]) (bytes "example.com:80") = some false :=
  ⟨by decide, by decide,
    (matchIPInRange_unparseable (parseRanges [bytes "127.0.0.1/8"]) (bytes "example.com:80")
      (bytes "example.com") (parseRanges_wellFormed [bytes "127.0.0.1/8"]) (by decide)
      (by decide)).1⟩

theorem filterMap_map_some {α β : Type} (g : α → Option β) (xs : List α) :
    (xs.filterMap g).map some = (xs.map g).filter Option.isSome := by
  induction xs with
  | nil => rfl
  | cons x xs ih =>
    cases hx : g x with
    | none => simpa [List.filterMap_cons, hx] using ih
    | some n => simpa [List.filterMap_cons, hx] using ih

/-- C8: `parseRanges` never fails and returns exactly the successfully parsed networks
of its input, in input order: it is the CIDR parser mapped over the input with the
failures dropped; so its length is at most that of the input, and its results are the
successes of the mapped list in their order. -/
theorem parseRanges_eq_filterMap (xs : List GoString) :
    parseRanges xs = xs.filterMap ParseCIDR ∧
    (parseRanges xs).length ≤ xs.length ∧
    (parseRanges xs).map some = (xs.map ParseCIDR).filter Option.isSome ∧
    ((parseRanges xs).map some).Sublist (xs.map ParseCIDR) := by
  have h1 : parseRanges xs = xs.filterMap ParseCIDR := by
    unfold parseRanges
    rw [parseRanges_loop_eq, List.nil_append]
  have h3 := filterMap_map_some ParseCIDR xs
  refine ⟨h1, ?_, ?_, ?_⟩
  · rw [h1]; exact List.length_filterMap_le _ _
  · rw [h1]; exact h3
  · rw [h1, h3]; exact List.filter_sublist _

/-- C9: for every filter configuration, next handler, writer and request, the handler
returned by `FilterHTTP` returns (no panic) and performs exactly one of the three
dispatch calls, exactly once: the next handler, or the denied responder, or the run of
the sub-chain with the next handler as its continuation. -/
theorem FilterHTTP_dispatch_exactly_once (f : IPFilter.Filter) (h : HandlerFunc)
    (w : ResponseWriter) (r : Request) :
    ∃ e, f.FilterHTTP h w r = some e ∧
      ((e.trace.filter Event.isDispatch = [Event.next] ∧ e.w = h w r) ∨
       (e.trace.filter Event.isDispatch = [Event.respond] ∧ e.w = f.responder w r) ∨
       (e.trace.filter Event.isDispatch = [Event.layerRun] ∧
          e.w = f.layer.Run "request" h w r)) := by
  unfold Filter.FilterHTTP
  obtain ⟨b, hb⟩ := matchIPInRange_total f.ranges r.RemoteAddr
  rcases FilterHTTP_loop_dispatch r f.filters 0 with ⟨h1, h2⟩ | ⟨h1, h2⟩
  · cases hl : FilterHTTP.loop r f.filters 0 with
    | mk t ret =>
      rw [hl] at h1 h2
      simp only at h1 h2
      subst h1
      exact ⟨_, rfl, Or.inl ⟨h2, rfl⟩⟩
  · cases hl : FilterHTTP.loop r f.filters 0 with
    | mk t ret =>
      rw [hl] at h1 h2
      simp only at h1 h2
      subst h1
      rw [hb]
      cases b with
      | false =>
        exact ⟨_, rfl, Or.inr (Or.inl ⟨by simp [h2, Event.isDispatch], rfl⟩)⟩
      | true =>
        exact ⟨_, rfl, Or.inr (Or.inr ⟨by simp [h2, Event.isDispatch], rfl⟩)⟩

/-- C10: for a filter built by `New ranges` with no further configuration and every
request whose `RemoteAddr` the parsed ranges do not match, the handler returned by
`FilterHTTP` writes status 403 and the body `Forbidden: client IP not allowed` and
nothing else, and calls neither the next handler nor the sub-chain. -/
theorem New_denied_response (ranges : List GoString) (h : HandlerFunc) (w : ResponseWriter)
    (r : Request) (hd : matchIPInRange (parseRanges ranges) r.RemoteAddr = some false) :
    ∃ e, (New ranges).FilterHTTP h w r = some e ∧
      e.w = w ++ [WriterCall.WriteHeader 403,
                  WriterCall.Write (bytes "Forbidden: client IP not allowed")] ∧
      e.trace = [Event.matchIP false, Event.respond] ∧
      Event.next ∉ e.trace ∧ Event.layerRun ∉ e.trace := by
  refine ⟨_, FilterHTTP_no_filters (New ranges) h w r rfl false hd, ?_, ?_, ?_, ?_⟩
  · simp [New, ForbiddenResponder]
  · simp
  · simp
  · simp

/-- Witness of C10: the range `127.0.0.1/8` and the remote address `128.0.0.1`. -/
theorem New_denied_response_witness :
    matchIPInRange (parseRanges [bytes "127.0.0.1/8"]) (bytes "128.0.0.1") = some false ∧
    ∃ e, (New [bytes "127.0.0.1/8"]).FilterHTTP
        (fun w _ => w ++ [WriterCall.Write (bytes "next")]) []
        { Method := bytes "GET", RequestURI := bytes "/", Host := bytes "example.com",
          RemoteAddr := bytes "128.0.0.1" } = some e ∧
      e.w = [] ++ [WriterCall.WriteHeader 403,
                   WriterCall.Write (bytes "Forbidden: client IP not allowed")] ∧
      e.trace = [Event.matchIP false, Event.respond] ∧
      Event.next ∉ e.trace ∧ Event.layerRun ∉ e.trace :=
  ⟨by decide, New_denied_response [bytes "127.0.0.1/8"]
    (fun w _ => w ++ [WriterCall.Write (bytes "next")]) []
    { Method := bytes "GET", RequestURI := bytes "/", Host := bytes "example.com",
      RemoteAddr := bytes "128.0.0.1" } (by decide)⟩

/-! ## Union of ranges, empty ranges, totality -/

theorem matchIPInRange_loop_append (ip : IP) (R1 R2 : List IPNet) :
    matchIPInRange.loop ip (R1 ++ R2)
      = (matchIPInRange.loop ip R1 || matchIPInRange.loop ip R2) := by
  induction R1 with
  | nil => simp [matchIPInRange.loop]
  | cons n rest ih =>
    simp only [List.cons_append, matchIPInRange.loop]
    by_cases h : n.Contains ip = true
    · simp [h]
    · simp [h, ih]

theorem matchIPInRange_loop_perm (ip : IP) (R R1 : List IPNet) (h : R.Perm R1) :
    matchIPInRange.loop ip R1 = matchIPInRange.loop ip R := by
  rw [Bool.eq_iff_iff, matchIPInRange_loop_iff, matchIPInRange_loop_iff]
  constructor
  · rintro ⟨n, hn, hc⟩
    exact ⟨n, h.mem_iff.mpr hn, hc⟩
  · rintro ⟨n, hn, hc⟩
    exact ⟨n, h.mem_iff.mp hn, hc⟩

theorem networkNumberAndMask_lengths (n : IPNet) :
    (networkNumberAndMask n).2.length = (networkNumberAndMask n).1.length := by
  unfold networkNumberAndMask
  simp only [IPv4len, IPv6len]
  rcases To4_length n.IP with h0 | h0
  · simp only [h0, true_and, if_true]
    split_ifs <;> simp_all
  · have hne : To4 n.IP ≠ [] := by intro e; rw [e] at h0; simp at h0
    simp only [hne, false_and, if_false]
    split_ifs <;> simp_all

/-- C11: matching is a union test. For all range lists `R1`, `R2` and every address
string `a`, both `matchIPInRange R1 a` and `matchIPInRange R2 a` return, and
`matchIPInRange (R1 ++ R2) a` is their disjunction; and `matchIPInRange` gives the same
result for every permutation of the range list. -/
theorem matchIPInRange_union (R1 R2 : List IPNet) (a : GoString) :
    (∃ b1 b2, matchIPInRange R1 a = some b1 ∧ matchIPInRange R2 a = some b2 ∧
      matchIPInRange (R1 ++ R2) a = some (b1 || b2)) ∧
    (∀ R : List IPNet, R1.Perm R → matchIPInRange R a = matchIPInRange R1 a) := by
  obtain ⟨t, ht⟩ := newIP_total a
  refine ⟨⟨_, _, matchIPInRange_eq R1 a t ht, matchIPInRange_eq R2 a t ht, ?_⟩, ?_⟩
  · rw [matchIPInRange_eq (R1 ++ R2) a t ht, matchIPInRange_loop_append]
  · intro R hperm
    rw [matchIPInRange_eq R a t ht, matchIPInRange_eq R1 a t ht,
      matchIPInRange_loop_perm (ParseIP t) R1 R hperm]

/-- Witness of C11: the ranges `127.0.0.1/8` and `::1/64` in both orders, with the
remote address `[::1]:3223`. -/
theorem matchIPInRange_union_witness :
    matchIPInRange (parseRanges [bytes "::1/64", bytes "127.0.0.1/8"]) (bytes "[::1]:3223")
      = matchIPInRange (parseRanges [bytes "127.0.0.1/8", bytes "::1/64"])
          (bytes "[::1]:3223") ∧
    matchIPInRange (parseRanges [bytes "127.0.0.1/8", bytes "::1/64"]) (bytes "[::1]:3223")
      = some true :=
  ⟨(matchIPInRange_union (parseRanges [bytes "127.0.0.1/8", bytes "::1/64"]) []
      (bytes "[::1]:3223")).2 (parseRanges [bytes "::1/64", bytes "127.0.0.1/8"])
      (by decide), by decide⟩

/-- C12: with an empty range list no address is allowed, `matchIPInRange [] a` is false
for every string `a`; and a filter built by `New` from CIDR strings none of which parses
(in particular from no string at all) has no ranges and, whatever filter functions are
registered, answers every request that does not take the bypass exit of the filter loop
with the denied responder. -/
theorem matchIPInRange_no_ranges (a : GoString) (ranges : List GoString)
    (hbad : ∀ x ∈ ranges, ParseCIDR x = none) :
    matchIPInRange [] a = some false ∧
    parseRanges ranges = [] ∧
    ∀ (fs : List FilterFunc) (h : HandlerFunc) (w : ResponseWriter) (r : Request),
      (FilterHTTP.loop r fs 0).2 = false →
      ∃ e, ((New ranges).Filter fs).FilterHTTP h w r = some e ∧
        e.w = ForbiddenResponder w r ∧
        e.trace.filter Event.isDispatch = [Event.respond] := by
  have h0 : ∀ s : GoString, matchIPInRange [] s = some false := by
    intro s
    obtain ⟨t, ht⟩ := newIP_total s
    rw [matchIPInRange_eq [] s t ht]
    rfl
  have hp : parseRanges ranges = [] := by
    unfold parseRanges
    rw [parseRanges_loop_eq, List.nil_append, List.filterMap_eq_nil_iff]
    exact hbad
  refine ⟨h0 a, hp, ?_⟩
  intro fs h w r hnb
  have hfs : ((New ranges).Filter fs).filters = fs := by simp [Filter.Filter, New]
  have hrs : ((New ranges).Filter fs).ranges = [] := by simp [Filter.Filter, New, hp]
  have hresp : ((New ranges).Filter fs).responder = ForbiddenResponder := by
    simp [Filter.Filter, New]
  unfold Filter.FilterHTTP
  rw [hfs, hrs, h0 r.RemoteAddr, hresp]
  rcases FilterHTTP_loop_dispatch r fs 0 with ⟨h1, _⟩ | ⟨_, h2⟩
  · rw [hnb] at h1
    exact absurd h1 (by simp)
  · cases hl : FilterHTTP.loop r fs 0 with
    | mk t ret =>
      rw [hl] at hnb h2
      simp only at hnb h2
      subst hnb
      exact ⟨_, rfl, rfl, by simp [h2, Event.isDispatch]⟩

/-- Witness of C12: a filter built from the two malformed expressions `10.0.0.0` and
`300.1.1.1/8` denies the request from `10.0.0.1:80`. -/
theorem matchIPInRange_no_ranges_witness :
    matchIPInRange [] (bytes "10.0.0.1:80") = some false ∧
    parseRanges [bytes "10.0.0.0", bytes "300.1.1.1/8"] = [] ∧
    ∃ e, ((New [bytes "10.0.0.0", bytes "300.1.1.1/8"]).Filter []).FilterHTTP
        (fun w _ => w ++ [WriterCall.Write (bytes "next")]) []
        { Method := bytes "GET", RequestURI := bytes "/", Host := bytes "example.com",
          RemoteAddr := bytes "10.0.0.1:80" } = some e ∧
      e.w = ForbiddenResponder []
        { Method := bytes "GET", RequestURI := bytes "/", Host := bytes "example.com",
          RemoteAddr := bytes "10.0.0.1:80" } ∧
      e.trace.filter Event.isDispatch = [Event.respond] :=
  have h := matchIPInRange_no_ranges (bytes "10.0.0.1:80")
    [bytes "10.0.0.0", bytes "300.1.1.1/8"] (by decide)
  ⟨h.1, h.2.1, h.2.2 [] (fun w _ => w ++ [WriterCall.Write (bytes "next")]) []
    { Method := bytes "GET", RequestURI := bytes "/", Host := bytes "example.com",
      RemoteAddr := bytes "10.0.0.1:80" } rfl⟩

/-- C13: request-time classification never panics. For every range list and every
remote-address string the slice `parts[0:len(parts)-1]` is within bounds, for every
string the slice `newIP[1:len(newIP)-1]` of the bracket step is within bounds, the
number and mask that `Contains` indexes have the same length, and `matchIPInRange`
returns a boolean; in particular for the strings `""`, `"["`, `":"` and `"[:"`. -/
theorem matchIPInRange_never_panics (R : List IPNet) (s : GoString) :
    (∃ ps, matchIPInRange.parts s = some ps) ∧
    (∀ t : GoString, ∃ u, matchIPInRange.brackets t = some u) ∧
    (∀ n : IPNet, (networkNumberAndMask n).2.length = (networkNumberAndMask n).1.length) ∧
    (∃ b, matchIPInRange R s = some b) ∧
    matchIPInRange R (bytes "") = some (matchIPInRange.loop [] R) ∧
    matchIPInRange R (bytes "[") = some (matchIPInRange.loop [] R) ∧
    matchIPInRange R (bytes ":") = some (matchIPInRange.loop [] R) ∧
    matchIPInRange R (bytes "[:") = some (matchIPInRange.loop [] R) := by
  refine ⟨parts_total s, brackets_total, networkNumberAndMask_lengths,
    matchIPInRange_total R s, ?_, ?_, ?_, ?_⟩
  · exact matchIPInRange_eq R _ (bytes "") (by decide)
  · exact matchIPInRange_eq R _ (bytes "[") (by decide)
  · exact matchIPInRange_eq R _ (bytes "") (by decide)
  · exact matchIPInRange_eq R _ (bytes "[") (by decide)

/-! ## Responder and filter functions -/

theorem foldl_SetResponder (fns : List HandlerFunc) : ∀ f : IPFilter.Filter,
    (fns.foldl Filter.SetResponder f).ranges = f.ranges ∧
    (fns.foldl Filter.SetResponder f).filters = f.filters ∧
    (fns.foldl Filter.SetResponder f).layer = f.layer := by
  induction fns with
  | nil => intro f; exact ⟨rfl, rfl, rfl⟩
  | cons fn fns ih =>
    intro f
    simp only [List.foldl_cons]
    exact ih (f.SetResponder fn)

theorem FilterHTTP_trace_congr (f g : IPFilter.Filter) (hr : g.ranges = f.ranges)
    (hf : g.filters = f.filters) (h : HandlerFunc) (w : ResponseWriter) (r : Request) :
    (g.FilterHTTP h w r).map Exec.trace = (f.FilterHTTP h w r).map Exec.trace := by
  unfold Filter.FilterHTTP
  rw [hr, hf]
  obtain ⟨b, hb⟩ := matchIPInRange_total f.ranges r.RemoteAddr
  rw [hb]
  cases hl : FilterHTTP.loop r f.filters 0 with
  | mk t ret =>
    cases ret <;> cases b <;> rfl

theorem FilterHTTP_respond_w (f : IPFilter.Filter) (h : HandlerFunc) (w : ResponseWriter)
    (r : Request) (e : Exec) (he : f.FilterHTTP h w r = some e)
    (hresp : Event.respond ∈ e.trace) : e.w = f.responder w r := by
  unfold Filter.FilterHTTP at he
  obtain ⟨b, hb⟩ := matchIPInRange_total f.ranges r.RemoteAddr
  rw [hb] at he
  rcases FilterHTTP_loop_dispatch r f.filters 0 with ⟨h1, h2⟩ | ⟨h1, h2⟩ <;>
  cases hl : FilterHTTP.loop r f.filters 0 with
  | mk t ret =>
    rw [hl] at h1 h2 he
    simp only at h1 h2
    subst h1
    have hmem : ∀ x, x ∈ t → Event.isDispatch x = true → x ∈ t.filter Event.isDispatch :=
      fun x hx hd => List.mem_filter.mpr ⟨hx, hd⟩
    first
    | (cases b <;>
        (simp only [Option.some.injEq] at he
         subst he
         first
         | rfl
         | (exfalso
            simp only [List.mem_append, List.mem_cons, List.mem_singleton] at hresp
            rcases hresp with hx | hx | hx | hx
            · have := hmem _ hx rfl
              rw [h2] at this
              simp at this
            · cases hx
            · cases hx
            · simp at hx)))
    | (exfalso
       simp only [Option.some.injEq] at he
       subst he
       have := hmem _ hresp rfl
       rw [h2] at this
       simp at this)

/-- C14: `SetResponder` is last-write-wins and changes only the responder. After any
sequence of `SetResponder` calls ending in `SetResponder fn`, the responder is `fn`, the
ranges, the filter functions and the layer are those of the filter before the calls,
every request produces the same trace of calls (the same Bypass, Deny or Allow outcome)
as before, and every request that reaches the denied responder is answered by `fn`. -/
theorem SetResponder_last_write_wins (f : IPFilter.Filter) (fns : List HandlerFunc)
    (fn : HandlerFunc) :
    ((fns.foldl Filter.SetResponder f).SetResponder fn).responder = fn ∧
    ((fns.foldl Filter.SetResponder f).SetResponder fn).ranges = f.ranges ∧
    ((fns.foldl Filter.SetResponder f).SetResponder fn).filters = f.filters ∧
    ((fns.foldl Filter.SetResponder f).SetResponder fn).layer = f.layer ∧
    ∀ (h : HandlerFunc) (w : ResponseWriter) (r : Request),
      (((fns.foldl Filter.SetResponder f).SetResponder fn).FilterHTTP h w r).map Exec.trace
        = (f.FilterHTTP h w r).map Exec.trace ∧
      ∀ e, ((fns.foldl Filter.SetResponder f).SetResponder fn).FilterHTTP h w r = some e →
        Event.respond ∈ e.trace → e.w = fn w r := by
  obtain ⟨h1, h2, h3⟩ := foldl_SetResponder fns f
  refine ⟨rfl, h1, h2, h3, ?_⟩
  intro h w r
  refine ⟨FilterHTTP_trace_congr f ((fns.foldl Filter.SetResponder f).SetResponder fn)
    h1 h2 h w r, ?_⟩
  intro e he hresp
  exact FilterHTTP_respond_w _ h w r e he hresp

/-- Witness of C14: after two `SetResponder` calls on the filter for `127.0.0.1/8`, the
request from `128.0.0.1` is answered by the second responder only. -/
theorem SetResponder_last_write_wins_witness :
    (((New [bytes "127.0.0.1/8"]).SetResponder
        (fun w _ => w ++ [WriterCall.WriteHeader 500])).SetResponder
        (fun w _ => w ++ [WriterCall.WriteHeader 401])).FilterHTTP
        (fun w _ => w ++ [WriterCall.Write (bytes "next")]) []
        { Method := bytes "GET", RequestURI := bytes "/", Host := bytes "example.com",
          RemoteAddr := bytes "128.0.0.1" }
      = some { w := [WriterCall.WriteHeader 401],
               trace := [Event.matchIP false, Event.respond] } ∧
    [WriterCall.WriteHeader 401]
      = (fun (w : ResponseWriter) (_ : Request) => w ++ [WriterCall.WriteHeader 401]) []
        { Method := bytes "GET", RequestURI := bytes "/", Host := bytes "example.com",
          RemoteAddr := bytes "128.0.0.1" } :=
  ⟨by decide,
   ((SetResponder_last_write_wins (New [bytes "127.0.0.1/8"])
      [fun w _ => w ++ [WriterCall.WriteHeader 500]]
      (fun w _ => w ++ [WriterCall.WriteHeader 401])).2.2.2.2
      (fun w _ => w ++ [WriterCall.Write (bytes "next")]) []
      { Method := bytes "GET", RequestURI := bytes "/", Host := bytes "example.com",
        RemoteAddr := bytes "128.0.0.1" }).2
      { w := [WriterCall.WriteHeader 401], trace := [Event.matchIP false, Event.respond] }
      (by decide) (by decide)⟩

theorem FilterHTTP_loop_first_false (r : Request) (flt : FilterFunc) (post : List FilterFunc)
    (hflt : flt r = false) : ∀ (pre : List FilterFunc) (i : Nat), (∀ g ∈ pre, g r = true) →
    FilterHTTP.loop r (pre ++ flt :: post) i =
      ((List.range pre.length).map (fun j => Event.filter (i + j) true)
        ++ [Event.filter (i + pre.length) false, Event.next], true) := by
  intro pre
  induction pre with
  | nil =>
    intro i _
    simp [FilterHTTP.loop, hflt]
  | cons g pre ih =>
    intro i hpre
    have hg : g r = true := hpre g (by simp)
    have ih2 := ih (i + 1) (fun x hx => hpre x (by simp [hx]))
    have ih3 : FilterHTTP.loop r (pre.append (flt :: post)) (i + 1) = _ := ih2
    have e1 : List.map (fun j => Event.filter (i + j) true) (List.range (pre.length + 1))
        = Event.filter i true
          :: List.map (fun j => Event.filter (i + 1 + j) true) (List.range pre.length) := by
      rw [List.range_succ_eq_map, List.map_cons, List.map_map]
      congr 1
      apply List.map_congr_left
      intro j _
      simp only [Function.comp, Nat.succ_eq_add_one]
      congr 1
      omega
    have e2 : i + (pre.length + 1) = i + 1 + pre.length := by omega
    simp only [List.cons_append, FilterHTTP.loop, hg, Bool.not_true, Bool.false_eq_true,
      if_false, ih3, List.length_cons, e1, e2]

theorem FilterHTTP_loop_no_matchIP (r : Request) (fs : List FilterFunc) :
    ∀ (i : Nat) (b : Bool), Event.matchIP b ∉ (FilterHTTP.loop r fs i).1 := by
  induction fs with
  | nil => intro i b; simp [FilterHTTP.loop]
  | cons g fs ih =>
    intro i b
    simp only [FilterHTTP.loop]
    cases hg : g r with
    | false => simp
    | true =>
      have := ih (i + 1) b
      simpa using this

/-- C15: the IP range check is applied to a request if and only if every registered
filter function returns true for it. The handler returns, and its trace holds the call
of `matchIPInRange` exactly when all filter functions return true for the request; at
the first filter function that returns false the next handler is called directly,
no later filter function and no range check are run; and with no filter function
registered the range check is always run. -/
theorem range_check_iff_all_filters_true (f : IPFilter.Filter) (h : HandlerFunc)
    (w : ResponseWriter) (r : Request) :
    ∃ e, f.FilterHTTP h w r = some e ∧
      ((∃ b, Event.matchIP b ∈ e.trace) ↔ ∀ flt ∈ f.filters, flt r = true) ∧
      (∀ (pre : List FilterFunc) (flt : FilterFunc) (post : List FilterFunc),
        f.filters = pre ++ flt :: post → (∀ g ∈ pre, g r = true) → flt r = false →
        e.w = h w r ∧
        e.trace = (List.range pre.length).map (fun j => Event.filter j true)
          ++ [Event.filter pre.length false, Event.next]) ∧
      (f.filters = [] →
        ∃ b, matchIPInRange f.ranges r.RemoteAddr = some b ∧ Event.matchIP b ∈ e.trace) := by
  obtain ⟨b, hb⟩ := matchIPInRange_total f.ranges r.RemoteAddr
  have hret := FilterHTTP_loop_returned_iff r f.filters 0
  have hno := FilterHTTP_loop_no_matchIP r f.filters 0
  have hfirst : ∀ (pre : List FilterFunc) (flt : FilterFunc) (post : List FilterFunc),
      f.filters = pre ++ flt :: post → (∀ g ∈ pre, g r = true) → flt r = false →
      FilterHTTP.loop r f.filters 0 =
        ((List.range pre.length).map (fun j => Event.filter j true)
          ++ [Event.filter pre.length false, Event.next], true) := by
    intro pre flt post hfs hpre hflt
    rw [hfs, FilterHTTP_loop_first_false r flt post hflt pre 0 hpre]
    simp
  unfold Filter.FilterHTTP
  rw [hb]
  cases hl : FilterHTTP.loop r f.filters 0 with
  | mk T ret =>
    rw [hl] at hret hno hfirst
    simp only at hret hno
    cases ret with
    | true =>
      obtain ⟨g, hg, hgf⟩ := hret.mp rfl
      refine ⟨_, rfl, ?_, ?_, ?_⟩
      · constructor
        · rintro ⟨b1, hb1⟩
          exact absurd hb1 (hno b1)
        · intro hall
          rw [hall g hg] at hgf
          exact absurd hgf (by simp)
      · intro pre flt post hfs hpre hflt
        have := hfirst pre flt post hfs hpre hflt
        simp only [Prod.mk.injEq, and_true] at this
        exact ⟨rfl, this⟩
      · intro hnil
        rw [hnil] at hg
        simp at hg
    | false =>
      have hall : ∀ flt ∈ f.filters, flt r = true := by
        intro flt hflt
        by_contra hne
        have : (false : Bool) = true := hret.mpr ⟨flt, hflt, by simpa using hne⟩
        exact absurd this (by simp)
      cases b with
      | false =>
        refine ⟨_, rfl, ?_, ?_, ?_⟩
        · exact ⟨fun _ => hall, fun _ => ⟨false, by simp⟩⟩
        · intro pre flt post hfs hpre hflt
          have := hfirst pre flt post hfs hpre hflt
          simp at this
        · intro _
          exact ⟨false, rfl, by simp⟩
      | true =>
        refine ⟨_, rfl, ?_, ?_, ?_⟩
        · exact ⟨fun _ => hall, fun _ => ⟨true, by simp⟩⟩
        · intro pre flt post hfs hpre hflt
          have := hfirst pre flt post hfs hpre hflt
          simp at this
        · intro _
          exact ⟨true, rfl, by simp⟩

/-- Witness of C15: with the filter functions `true`, `false`, `true` registered in this
order, the request from `127.0.0.1` goes to the next handler after the second filter
function, without range check. -/
theorem range_check_iff_all_filters_true_witness :
    ((New [bytes "127.0.0.1/8"]).Filter
        [fun _ => true, fun _ => false, fun _ => true]).FilterHTTP
        (fun w _ => w ++ [WriterCall.Write (bytes "next")]) []
        { Method := bytes "GET", RequestURI := bytes "/", Host := bytes "example.com",
          RemoteAddr := bytes "127.0.0.1" }
      = some { w := [WriterCall.Write (bytes "next")],
               trace := [Event.filter 0 true, Event.filter 1 false, Event.next] } ∧
    ∃ e, ((New [bytes "127.0.0.1/8"]).Filter
        [fun _ => true, fun _ => false, fun _ => true]).FilterHTTP
        (fun w _ => w ++ [WriterCall.Write (bytes "next")]) []
        { Method := bytes "GET", RequestURI := bytes "/", Host := bytes "example.com",
          RemoteAddr := bytes "127.0.0.1" } = some e ∧
      ¬ (∃ b, Event.matchIP b ∈ e.trace) :=
  ⟨by decide,
   match range_check_iff_all_filters_true
      ((New [bytes "127.0.0.1/8"]).Filter [fun _ => true, fun _ => false, fun _ => true])
      (fun w _ => w ++ [WriterCall.Write (bytes "next")]) []
      { Method := bytes "GET", RequestURI := bytes "/", Host := bytes "example.com",
        RemoteAddr := bytes "127.0.0.1" } with
   | ⟨e, he, hiff, _, _⟩ =>
     ⟨e, he, fun hm => absurd (hiff.mp hm (fun _ => false) (by simp [Filter.Filter, New]))
       (by simp)⟩⟩

/-! ## Bracket step and the last segment -/

theorem Split_append_cons (p r : GoString) (sep : Nat) (hp : sep ∉ p) :
    Split (p ++ sep :: r) sep = p :: Split r sep := by
  induction p with
  | nil => simp [Split]
  | cons c cs ih =>
    have hc : ¬ c = sep := fun e => hp (by simp [e])
    have hcs : sep ∉ cs := fun e => hp (by simp [e])
    have ih2 : Split (cs.append (sep :: r)) sep = cs :: Split r sep := ih hcs
    simp only [List.cons_append, Split, hc, if_false]
    rw [ih2]

theorem Split_Join (sep : Nat) (rest : List GoString) : ∀ p : GoString,
    (∀ s ∈ p :: rest, sep ∉ s) → Split (Join (p :: rest) [sep]) sep = p :: rest := by
  induction rest with
  | nil =>
    intro p h
    simp only [Join]
    exact Split_no_sep p sep (h p (by simp))
  | cons q rest ih =>
    intro p h
    have e : Join (p :: q :: rest) [sep] = p ++ sep :: Join (q :: rest) [sep] := by
      simp [Join]
    rw [e, Split_append_cons p _ sep (h p (by simp)),
      ih q (fun s hs => h s (List.mem_cons_of_mem p hs))]

theorem Join_dropLast_append (sep : GoString) (rest : List GoString) :
    ∀ p q : GoString, ∃ l, Join (p :: q :: rest) sep
      = Join (p :: q :: rest).dropLast sep ++ sep ++ l := by
  induction rest with
  | nil =>
    intro p q
    exact ⟨q, by simp [Join]⟩
  | cons r rest ih =>
    intro p q
    obtain ⟨l, hl⟩ := ih q r
    have e : (p :: q :: r :: rest).dropLast = p :: q :: (r :: rest).dropLast := by
      simp [List.dropLast]
    have e2 : (q :: r :: rest).dropLast = q :: (r :: rest).dropLast := by
      simp [List.dropLast]
    refine ⟨l, ?_⟩
    rw [e]
    rw [e2] at hl
    simp only [Join] at hl ⊢
    rw [hl]
    simp

/-- C16, the claim as stated fails: the bracket step leaves the single byte `[` as it is,
and from `[1.2.3.45`, which does not end in `]`, it removes the last byte `5`. -/
theorem brackets_not_bracketsSpec :
    matchIPInRange.brackets (bytes "[") = some (bytes "[") ∧
    bracketsSpec (bytes "[") = bytes "" ∧
    matchIPInRange.brackets (bytes "[1.2.3.45") = some (bytes "1.2.3.4") ∧
    bracketsSpec (bytes "[1.2.3.45") = bytes "1.2.3.45" ∧
    matchIPInRange.brackets (bytes "[") ≠ some (bracketsSpec (bytes "[")) ∧
    matchIPInRange.brackets (bytes "[1.2.3.45") ≠ some (bracketsSpec (bytes "[1.2.3.45")) := by
  decide

/-- C16, as amended: for every raw string whose port-stripped form is `[`, then a string
`u`, then `]`, the string handed to the IP parser is exactly `u`, which is what the
specification asks for: one leading `[` and one trailing `]` are removed and nothing
else; and the single byte `[` is handed on unchanged. -/
theorem newIP_strips_bracket_pair (raw u : GoString) (ps : List GoString)
    (hps : matchIPInRange.parts raw = some ps)
    (ht : Join ps [chColon] = chLBracket :: (u ++ [chRBracket])) :
    matchIPInRange.newIP raw = some u ∧
    bracketsSpec (Join ps [chColon]) = u ∧
    matchIPInRange.brackets [chLBracket] = some [chLBracket] := by
  refine ⟨?_, ?_, by decide⟩
  · unfold matchIPInRange.newIP
    rw [hps]
    simp only [ht]
    exact brackets_bracketed u
  · rw [ht]
    unfold bracketsSpec
    simp

/-- Witness of C16 as amended: the remote address `[::1]:3223`. -/
theorem newIP_strips_bracket_pair_witness :
    matchIPInRange.newIP (bytes "[::1]:3223") = some (bytes "::1") ∧
    bracketsSpec (Join [bytes "[", bytes "", bytes "1]"] [chColon]) = bytes "::1" ∧
    matchIPInRange.brackets [chLBracket] = some [chLBracket] :=
  newIP_strips_bracket_pair (bytes "[::1]:3223") (bytes "::1")
    [bytes "[", bytes "", bytes "1]"] (by decide) (by decide)

/-- C17: for every raw string that does not start with `[` and is made of `k > 1`
segments without `:` joined by `:`, the string handed to the IP parser is the first
`k - 1` segments joined by `:`; the last segment is always dropped. -/
theorem newIP_drops_last_segment (segs : List GoString) (hk : 1 < segs.length)
    (hseg : ∀ s ∈ segs, chColon ∉ s)
    (hbr : (Join segs [chColon]).head? ≠ some chLBracket) :
    matchIPInRange.newIP (Join segs [chColon]) = some (Join segs.dropLast [chColon]) := by
  match segs, hk with
  | p :: q :: rest, _ =>
    have hsplit := Split_Join chColon (q :: rest) p hseg
    unfold matchIPInRange.newIP matchIPInRange.parts slice
    rw [hsplit]
    have hlen : (p :: q :: rest).length > 1 := by simp
    simp only [hlen, if_true, Nat.zero_le, true_and, Nat.sub_le, List.drop_zero,
      ← List.dropLast_eq_take]
    unfold matchIPInRange.brackets
    obtain ⟨l, hl⟩ := Join_dropLast_append [chColon] rest p q
    have hcond : ¬ ((Join (p :: q :: rest).dropLast [chColon]).length > 1 ∧
        (Join (p :: q :: rest).dropLast [chColon]).get? 0 = some chLBracket) := by
      rintro ⟨h1, h2⟩
      apply hbr
      rw [hl]
      cases hj : Join (p :: q :: rest).dropLast [chColon] with
      | nil => rw [hj] at h1; simp at h1
      | cons c cs =>
        rw [hj] at h2
        simpa using h2
    rw [if_neg hcond]

/-- Witness of C17: the bare IPv6 literal `::1` is handed to the parser as `:`, and the
range `::1/64` denies it. -/
theorem newIP_drops_last_segment_witness :
    matchIPInRange.newIP (Join [bytes "", bytes "", bytes "1"] [chColon])
      = some (Join [bytes "", bytes "", bytes "1"].dropLast [chColon]) ∧
    Join [bytes "", bytes "", bytes "1"] [chColon] = bytes "::1" ∧
    Join [bytes "", bytes "", bytes "1"].dropLast [chColon] = bytes ":" ∧
    matchIPInRange (parseRanges [bytes "::1/64"]) (bytes "::1") = some false :=
  ⟨newIP_drops_last_segment [bytes "", bytes "", bytes "1"] (by decide) (by decide)
    (by decide), by decide, by decide, by decide⟩

/-! ## IPv4 blocks and address families -/

theorem IndexByteString_append (b r : GoString) (c : Nat) (hb : c ∉ b) :
    IndexByteString (b ++ c :: r) c = some b.length := by
  induction b with
  | nil => simp [IndexByteString]
  | cons x xs ih =>
    have hx : ¬ x = c := fun e => hb (by simp [e])
    have hxs : c ∉ xs := fun e => hb (by simp [e])
    simp [IndexByteString, hx, ih hxs]

theorem ParseCIDR_v4 (b pstr : GoString) (R : IPNet) (hb : chSlash ∉ b)
    (hb4 : parseIPv4 b ≠ []) (hR : ParseCIDR (b ++ chSlash :: pstr) = some R) :
    ∃ n, n ≤ 32 ∧
      R = { IP := Mask (parseIPv4 b) (CIDRMask n 32), Mask := CIDRMask n 32 } := by
  unfold ParseCIDR at hR
  rw [IndexByteString_append b pstr chSlash hb] at hR
  simp only [List.take_left, hb4, if_false] at hR
  split at hR
  · cases hR
  · rename_i hc
    simp only [not_or] at hc
    refine ⟨(dtoi (List.drop (b.length + 1) (b ++ chSlash :: pstr))).1, ?_, ?_⟩
    · have := hc.2.2.2
      simp only [IPv4len] at this
      omega
    · simp only [IPv4len, Option.some.injEq, Nat.reduceMul] at hR
      exact hR.symm

theorem To4_IPv4 (a b c d : Nat) : To4 (IPv4 a b c d) = [a, b, c, d] := by
  simp [To4, IPv4, v4InV6Prefix, IPv4len, IPv6len]

theorem block_iff (n m D : Nat) (hD : 0 < D) :
    n / D * D = m / D * D ↔ (m / D * D ≤ n ∧ n ≤ m / D * D + D - 1) := by
  constructor
  · intro h
    have h1 := Nat.div_mul_le_self n D
    have h2 := Nat.lt_div_mul_add (a := n) hD
    omega
  · rintro ⟨h1, h2⟩
    have : n / D = m / D := Nat.div_eq_of_lt_le h1 (by rw [Nat.succ_mul]; omega)
    rw [this]

/-- C18: host bits of a CIDR expression are ignored and an IPv4 range is a contiguous
block of `2^(32-p)` addresses. For every IPv4 CIDR expression `b/p` that parses and every
remote address whose normalised form parses to an IPv4 address, with `n` the 32-bit
big-endian integer and `base` the integer of `b` with its low `32-p` bits cleared,
`matchIPInRange (parseRanges [b/p]) raw` is true if and only if
`base ≤ n(a) ≤ base + 2^(32-p) - 1`. -/
theorem ipv4_range_is_block (b pstr raw t : GoString) (p : Nat) (R : IPNet)
    (hb : chSlash ∉ b) (hb4 : parseIPv4 b ≠ [])
    (hR : ParseCIDR (b ++ bytes "/" ++ pstr) = some R) (hp : R.Mask = CIDRMask p 32)
    (ht : matchIPInRange.newIP raw = some t) (ha : To4 (ParseIP t) ≠ []) :
    p ≤ 32 ∧
    (matchIPInRange (parseRanges [b ++ bytes "/" ++ pstr]) raw = some true ↔
      (ipInt (To4 (parseIPv4 b)) / 2 ^ (32 - p) * 2 ^ (32 - p) ≤ ipInt (To4 (ParseIP t)) ∧
       ipInt (To4 (ParseIP t))
         ≤ ipInt (To4 (parseIPv4 b)) / 2 ^ (32 - p) * 2 ^ (32 - p) + 2 ^ (32 - p) - 1)) := by
  have es : b ++ bytes "/" ++ pstr = b ++ chSlash :: pstr := by
    have e : bytes "/" = [chSlash] := by decide
    rw [e]; simp
  rw [es] at hR ⊢
  have hpr : parseRanges [b ++ chSlash :: pstr] = [R] := by
    simp [parseRanges, parseRanges.loop, hR]
  obtain ⟨n, hn, hRn⟩ := ParseCIDR_v4 b pstr R hb hb4 hR
  obtain ⟨a0, a1, a2, a3, h0, h1, h2, h3, hb4e⟩ : ∃ a0 a1 a2 a3, a0 < 256 ∧ a1 < 256 ∧
      a2 < 256 ∧ a3 < 256 ∧ parseIPv4 b = IPv4 a0 a1 a2 a3 := by
    rcases parseIPv4_cases b with h | h
    · exact absurd h hb4
    · exact h
  have hmn : (CIDRMask n 32).length = 4 := by rw [CIDRMask_32 n hn, CIDRMask_go_length]
  have hIP : R.IP = (List.range 4).map
      (fun i => [a0, a1, a2, a3].getD i 0 &&& R.Mask.getD i 0) := by
    rw [hRn]
    simp only []
    rw [Mask_v4 (parseIPv4 b) (CIDRMask n 32) (by rw [hb4e]; rfl) (by rw [hb4e]; rfl) hmn,
      hb4e]
    rfl
  have hlen : R.IP.length = 4 := by rw [hIP]; simp
  have hml : R.Mask.length = R.IP.length := by rw [hlen, hRn]; exact hmn
  have hp2 : R.Mask = CIDRMask p (8 * R.IP.length) := by rw [hlen]; exact hp
  obtain ⟨hple, hgo⟩ := mask_of_CIDRMask R p (Or.inl hlen) hml hp2
  rw [hlen] at hple hgo
  refine ⟨by omega, ?_⟩
  have hinv : V6Inv (ParseIP t) := by
    rcases ParseIP_cases t with h | h
    · rw [h, To4_nil] at ha; exact absurd rfl ha
    · exact h
  have hcanon : canon (ParseIP t) = To4 (ParseIP t) := by
    unfold canon; rw [if_pos ha]
  have hl4 : (To4 (ParseIP t)).length = 4 := by
    rcases To4_length (ParseIP t) with h | h
    · exact absurd h ha
    · exact h
  have hfam : (canon (ParseIP t)).length = R.IP.length := by rw [hcanon, hl4, hlen]
  have hnb : AllBytes [a0, a1, a2, a3] := by
    intro x hx
    simp at hx
    omega
  have hbR : AllBytes R.IP := by
    rw [hIP]
    intro x hx
    simp only [List.mem_map, List.mem_range] at hx
    obtain ⟨i, _, rfl⟩ := hx
    exact lt_of_le_of_lt Nat.and_le_left (AllBytes_getD _ _ hnb)
  have hbase : clearAfter p R.IP = clearAfter p [a0, a1, a2, a3] := by
    rw [clearAfter_eq_iff p R.IP [a0, a1, a2, a3] (by rw [hlen]; rfl)]
    have hcore := leading_bits_core 4 p R.IP [a0, a1, a2, a3] hlen rfl hbR hnb
      (by omega)
    simp only [List.length_cons, List.length_nil] at hcore ⊢
    rw [← hcore, ← hgo]
    intro i hi
    rw [hIP, getD_map_range, if_pos hi, Nat.land_assoc, Nat.and_self]
  rw [hpr, matchIPInRange_eq [R] raw t ht, Option.some.injEq, matchIPInRange_loop_iff]
  have hC := Contains_iff_leading_bits (b ++ chSlash :: pstr) R p (ParseIP t) hR hp2 hinv hfam
  have hex : (∃ x ∈ [R], x.Contains (ParseIP t) = true) ↔ R.Contains (ParseIP t) = true := by
    simp
  rw [hex, hC, hbase, hcanon, hb4e, To4_IPv4]
  unfold clearAfter
  rw [hl4]
  simp only [List.length_cons, List.length_nil]
  exact block_iff _ _ _ (by positivity)

/-- Witness of C18: the range `192.168.0.1/27` allows `192.168.0.26` and denies
`192.168.0.96`; `127.0.0.1/8` allows `127.10.1.1`; `1.0.0.0/24` allows `1.0.0.255` and
denies `1.0.1.1`. -/
theorem ipv4_range_is_block_witness :
    (27 ≤ 32 ∧
      (matchIPInRange (parseRanges [bytes "192.168.0.1" ++ bytes "/" ++ bytes "27"])
          (bytes "192.168.0.26") = some true ↔
        (ipInt (To4 (parseIPv4 (bytes "192.168.0.1"))) / 2 ^ (32 - 27) * 2 ^ (32 - 27)
            ≤ ipInt (To4 (ParseIP (bytes "192.168.0.26"))) ∧
         ipInt (To4 (ParseIP (bytes "192.168.0.26")))
           ≤ ipInt (To4 (parseIPv4 (bytes "192.168.0.1"))) / 2 ^ (32 - 27) * 2 ^ (32 - 27)
             + 2 ^ (32 - 27) - 1))) ∧
    matchIPInRange (parseRanges [bytes "192.168.0.1/27"]) (bytes "192.168.0.26") = some true ∧
    matchIPInRange (parseRanges [bytes "192.168.0.1/27"]) (bytes "192.168.0.96") = some false ∧
    matchIPInRange (parseRanges [bytes "127.0.0.1/8"]) (bytes "127.10.1.1") = some true ∧
    matchIPInRange (parseRanges [bytes "1.0.0.0/24"]) (bytes "1.0.0.255") = some true ∧
    matchIPInRange (parseRanges [bytes "1.0.0.0/24"]) (bytes "1.0.1.1") = some false :=
  ⟨ipv4_range_is_block (bytes "192.168.0.1") (bytes "27") (bytes "192.168.0.26")
      (bytes "192.168.0.26") 27 { IP := [192, 168, 0, 0], Mask := [255, 255, 255, 224] }
      (by decide) (by decide) (by decide) (by decide) (by decide) (by decide),
    by decide, by decide, by decide, by decide, by decide⟩

/-- C19, the claim as stated fails: the IPv4 range `127.0.0.1/8` matches the remote
address `[::ffff:127.0.0.1]:80`, whose normal form is the IPv6 literal
`::ffff:127.0.0.1`, and the IPv6 range `::ffff:1.2.3.0/120` matches the dotted IPv4
address `1.2.3.4`. -/
theorem families_cross_match :
    matchIPInRange.newIP (bytes "[::ffff:127.0.0.1]:80") = some (bytes "::ffff:127.0.0.1") ∧
    matchIPInRange (parseRanges [bytes "127.0.0.1/8"]) (bytes "[::ffff:127.0.0.1]:80")
      = some true ∧
    parseRanges [bytes "::ffff:1.2.3.0/120"]
      = [{ IP := [0, 0, 0, 0, 0, 0, 0, 0, 0, 0, 255, 255, 1, 2, 3, 0],
           Mask := List.replicate 15 255 ++ [0] }] ∧
    matchIPInRange (parseRanges [bytes "::ffff:1.2.3.0/120"]) (bytes "1.2.3.4") = some true := by
  decide

/-- C19, as amended: a parsed range whose base address has 4 bytes matches no remote
address whose normal form is neither an IPv4 nor an IPv4-mapped address (`To4` is nil),
and a parsed range whose base address has 16 bytes and is not IPv4-mapped matches no
remote address whose normal form parses to an IPv4 or IPv4-mapped address. -/
theorem families_do_not_cross (s raw t : GoString) (R : IPNet)
    (hR : ParseCIDR s = some R) (ht : matchIPInRange.newIP raw = some t)
    (h : (R.IP.length = 4 ∧ To4 (ParseIP t) = []) ∨
         (R.IP.length = 16 ∧ To4 R.IP = [] ∧ To4 (ParseIP t) ≠ [])) :
    matchIPInRange [R] raw = some false := by
  have hwf := ParseCIDR_wellFormed s R hR
  rw [matchIPInRange_eq [R] raw t ht]
  simp only [matchIPInRange.loop, Option.some.injEq]
  have hC : R.Contains (ParseIP t) = false := by
    rw [Contains_eq]
    rcases h with ⟨h4, hA⟩ | ⟨h16, hR4, hA⟩
    · have hm : R.Mask.length = 4 := by
        rcases hwf with ⟨_, hm⟩ | ⟨hi, _⟩
        · exact hm
        · rw [h4] at hi; omega
      rw [networkNumberAndMask_v4 R h4 hm]
      have hcl : (canon (ParseIP t)).length ≠ R.IP.length := by
        unfold canon
        rw [hA]
        simp only [ne_eq, not_true_eq_false, if_false]
        rcases ParseIP_cases t with h0 | h0
        · rw [h0, h4]; simp
        · rw [h0.1, h4]; decide
      simp [hcl]
    · have hm : R.Mask.length = 16 := by
        rcases hwf with ⟨hi, _⟩ | ⟨_, hm⟩
        · rw [h16] at hi; omega
        · exact hm
      rw [networkNumberAndMask_v6 R h16 hm hR4]
      have hcl : (canon (ParseIP t)).length ≠ R.IP.length := by
        unfold canon
        rw [if_pos hA]
        rcases To4_length (ParseIP t) with h0 | h0
        · exact absurd h0 hA
        · rw [h0, h16]; decide
      simp [hcl]
  simp [hC]

/-- Witness of C19 as amended: the range `127.0.0.1/8` with the remote address
`[::1]:3223`, and the range `::1/64` with the remote address `127.0.0.1:1234`. -/
theorem families_do_not_cross_witness :
    matchIPInRange [{ IP := [127, 0, 0, 0], Mask := [255, 0, 0, 0] }] (bytes "[::1]:3223")
      = some false ∧
    matchIPInRange [{ IP := List.replicate 16 0,
                      Mask := List.replicate 8 255 ++ List.replicate 8 0 }]
        (bytes "127.0.0.1:1234") = some false :=
  ⟨families_do_not_cross (bytes "127.0.0.1/8") (bytes "[::1]:3223") (bytes "::1")
      { IP := [127, 0, 0, 0], Mask := [255, 0, 0, 0] } (by decide) (by decide)
      (Or.inl ⟨by decide, by decide⟩),
   families_do_not_cross (bytes "::1/64") (bytes "127.0.0.1:1234") (bytes "127.0.0.1")
      { IP := List.replicate 16 0, Mask := List.replicate 8 255 ++ List.replicate 8 0 }
      (by decide) (by decide) (Or.inr ⟨by decide, by decide, by decide⟩)⟩

end IPFilter
